import Mathlib

/-!
# go-queue: DiskQueue, TMOCond and BlockQueue

A shallow embedding of `diskqueue/diskqueue.go`, `blockqueue/tmocond.go` and
`blockqueue/blockqueue.go`, followed by the properties established about them.

Conventions of the embedding:

* a byte is a natural number (the encoder only produces values below 256);
* `int32` arithmetic (the frame length) wraps explicitly through `toInt32`;
  the `int64`/`int` cursors and counters are unbounded integers;
* the directory is a `Disk`: the segment files by number and the checkpoint;
* an open `*os.File` is a handle holding the segment number and the offset,
  and the `bufio.Reader` built over the read handle keeps its read-ahead bytes;
* operating-system failures are injected through a `Faults` record;
* the goroutine `sync`, which rewrites the checkpoint every second, is
  represented by explicit calls of `persistMetaData`;
* goroutines calling a `BlockQueue` are a `Sys`: the lock makes each section
  between two `Lock`/`Unlock` one step, the receive of `Wait` is a step of its
  own, and a schedule is a list of such steps.
-/

namespace GoQueue

/-! ## Machine integers and the frame header -/

/-- Two's-complement wrap to a signed 32-bit value (a Go `int32`). -/
def toInt32 (x : Int) : Int := (x + 2147483648) % 4294967296 - 2147483648

/-- The four bytes `binary.Write(_, binary.BigEndian, x)` emits for an `int32`. -/
def putInt32 (x : Int) : List Nat :=
  let u := (x % 4294967296).toNat
  [u / 16777216 % 256, u / 65536 % 256, u / 256 % 256, u % 256]

/-- The `int32` that `binary.Read(_, binary.BigEndian, &msgSize)` decodes from
the four bytes it has read. -/
def getInt32 (bs : List Nat) : Int :=
  match bs with
  | [a, b, c, d] => toInt32 ((a : Int) * 16777216 + (b : Int) * 65536 + (c : Int) * 256 + (d : Int))
  | _ => 0

/-! ## Errors, the directory and the handles -/

/-- The error values the disk queue can return. -/
inductive QErr where
  /-- The value of `errors.New("empty queue")`. -/
  | emptyQueue
  /-- The value of `errors.New("v must be a []byte")`. -/
  | notBytes
  /-- What `os.OpenFile` returns on failure. -/
  | openFailed
  /-- What `Seek` returns on failure. -/
  | seekFailed
  /-- An input/output error of a `Read` on the file. -/
  | readFailed
  /-- What `Write` returns on failure. -/
  | writeFailed
  /-- The value `io.EOF`. -/
  | eof
  /-- The value `io.ErrUnexpectedEOF`. -/
  | unexpectedEOF
  /-- What `fmt.Fscanf` returns when the checkpoint text is short or malformed. -/
  | scanFailed
  deriving DecidableEq, Repr

/-- Operating-system failures injected into one call. -/
structure Faults where
  /-- Every `os.OpenFile` of the call fails. -/
  openFails : Bool
  /-- Every `Seek` of the call fails. -/
  seekFails : Bool
  /-- Every `Read` that reaches the file fails with an input/output error. -/
  readFails : Bool
  /-- Every `Write` on a file fails, and writes nothing. -/
  writeFails : Bool
  deriving DecidableEq, Repr

/-- No injected failure: every file operation succeeds when the file system allows it. -/
def noFaults : Faults := ⟨false, false, false, false⟩

/-- The data directory: segment file `fileName(n)` by its number `n` (absent
files are `none`) and the numbers `fmt.Fscanf` scans from the checkpoint file
`metaDataFileName()` in order, up to the first one it cannot scan (`none`: the
checkpoint file cannot be opened). -/
structure Disk where
  /-- Content of the segment files. -/
  files : Int → Option (List Nat)
  /-- The integers scanned from the checkpoint file. -/
  metaData : Option (List Int)

/-- The directory with no file at all. -/
def emptyDisk : Disk := ⟨fun _ => none, none⟩

/-- Replace the content of segment `n`. -/
def Disk.setFile (d : Disk) (n : Int) (c : List Nat) : Disk :=
  { d with files := fun k => if k = n then some c else d.files k }

/-- The fields `readFile` and `reader` together: the segment the handle was
opened on, the offset of the `os.File`, and the bytes the `bufio.Reader` has
fetched from the file and not handed out yet. -/
structure Reader where
  /-- Segment the handle is open on. -/
  fileNum : Int
  /-- Offset of the underlying file handle. -/
  off : Nat
  /-- Read-ahead bytes held by the `bufio.Reader`. -/
  buf : List Nat
  deriving DecidableEq, Repr

/-- The field `writeFile`: the segment the handle was opened on and its offset. -/
structure Writer where
  /-- Segment the handle is open on. -/
  fileNum : Int
  /-- Offset of the file handle. -/
  off : Nat
  deriving DecidableEq, Repr

/-- The struct `DiskQueue` (`name` and `dataPath` select the directory, which is
the `Disk` argument of the operations; `writeBuf` is reset by every `Put`;
`needSyncCh` and `syncEvery` are never read). -/
structure DiskQueue where
  /-- Field `readPos`. -/
  readPos : Int
  /-- Field `writePos`. -/
  writePos : Int
  /-- Field `readFileNum`. -/
  readFileNum : Int
  /-- Field `writeFileNum`. -/
  writeFileNum : Int
  /-- Field `maxBytesPerFile`. -/
  maxBytesPerFile : Int
  /-- Field `nextReadPos`. -/
  nextReadPos : Int
  /-- Field `nextReadFileNum`. -/
  nextReadFileNum : Int
  /-- Fields `readFile` and `reader`; `none` is the nil handle. -/
  readFile : Option Reader
  /-- Field `writeFile`; `none` is the nil handle. -/
  writeFile : Option Writer
  /-- Field `needSync`. -/
  needSync : Bool
  /-- Field `size`. -/
  size : Int
  deriving DecidableEq, Repr

/-- Method `Size`. -/
def DiskQueue.Size (q : DiskQueue) : Int := q.size

/-! ## Reading through the `bufio.Reader` -/

/-- Size of the buffer `bufio.NewReader` allocates. -/
def bufSize : Nat := 4096

/-- One `Read` of `n > 0` bytes on the file handle at offset `off`: the bytes
available there, at most `n`; none left is `io.EOF`. -/
def fileRead (fl : Faults) (content : List Nat) (off n : Nat) : Except QErr (List Nat) :=
  if fl.readFails then .error .readFailed
  else
    let data := (content.drop off).take n
    if data = [] then .error .eof else .ok data

/-- One `bufio.Reader.Read` into a slice of `n > 0` bytes: buffered bytes are
handed out first; with an empty buffer a request of at least `bufSize` bytes
goes to the file directly, a smaller one refills the buffer with one file read. -/
def Reader.read (fl : Faults) (content : List Nat) (r : Reader) (n : Nat) :
    Except QErr (List Nat × Reader) :=
  if r.buf ≠ [] then .ok (r.buf.take n, { r with buf := r.buf.drop n })
  else if bufSize ≤ n then
    match fileRead fl content r.off n with
    | .error e => .error e
    | .ok data => .ok (data, { r with off := r.off + data.length })
  else
    match fileRead fl content r.off bufSize with
    | .error e => .error e
    | .ok data => .ok (data.take n, { r with off := r.off + data.length, buf := data.drop n })

/-- The loop of `io.ReadFull` (`io.ReadAtLeast`): read until `need` more bytes
have been gathered or a read fails; `io.EOF` after some bytes is turned into
`io.ErrUnexpectedEOF`. Every successful read yields at least one byte, so
`fuel = need` iterations are enough and the second equation is never reached
from `readFull`. -/
def readFullLoop (fl : Faults) (content : List Nat) :
    Nat → Reader → Nat → List Nat → Except QErr (List Nat × Reader)
  | _, r, 0, acc => .ok (acc, r)
  | 0, _, _ + 1, _ => .error .unexpectedEOF
  | fuel + 1, r, need + 1, acc =>
    match r.read fl content (need + 1) with
    | .error e => .error (if acc ≠ [] ∧ e = .eof then .unexpectedEOF else e)
    | .ok (data, r1) => readFullLoop fl content fuel r1 (need + 1 - data.length) (acc ++ data)

/-- The call `io.ReadFull(q.reader, buf)` with `len(buf) = n`. -/
def readFull (fl : Faults) (content : List Nat) (r : Reader) (n : Nat) :
    Except QErr (List Nat × Reader) :=
  readFullLoop fl content n r n []

/-! ## DiskQueue.Put -/

/-- The value handed to `Put`: a `[]byte`, or a value of another dynamic type. -/
inductive Item where
  /-- A byte slice. -/
  | bytes (b : List Nat)
  /-- A value that is not a `[]byte`. -/
  | other
  deriving DecidableEq, Repr

/-- The file after `Write(data)` on a handle at offset `off` (the file is opened
without `O_APPEND` and without `O_TRUNC`): the bytes at `off` are overwritten, a
gap beyond the end is filled with zeros. -/
def writeAt (content : List Nat) (off : Nat) (data : List Nat) : List Nat :=
  content.take off ++ List.replicate (off - content.length) 0 ++ data
    ++ content.drop (off + data.length)

/-- The block of `Put` that opens the write segment when `q.writeFile == nil`
(`OpenFile` with `O_RDWR|O_CREATE`, then `Seek(q.writePos, 0)` when
`q.writePos > 0`): the handle and the directory, or the error and the directory. -/
def openWrite (fl : Faults) (d : Disk) (q : DiskQueue) : Except (QErr × Disk) (Writer × Disk) :=
  if fl.openFails then .error (.openFailed, d)
  else
    let d1 := match d.files q.writeFileNum with
      | some _ => d
      | none => d.setFile q.writeFileNum []
    if q.writePos > 0 then
      if fl.seekFails then .error (.seekFailed, d1)
      else .ok (⟨q.writeFileNum, q.writePos.toNat⟩, d1)
    else .ok (⟨q.writeFileNum, 0⟩, d1)

/-- The part of `Put` from `dataLen := int32(len(b))` to the end, on the open
write handle `w`. -/
def DiskQueue.appendFrame (fl : Faults) (b : List Nat) (w : Writer) (d : Disk) (q : DiskQueue) :
    Option QErr × Disk × DiskQueue :=
  let dataLen := toInt32 b.length
  let frame := putInt32 dataLen ++ b
  if fl.writeFails then (some .writeFailed, d, { q with writeFile := none })
  else
    let content := (d.files w.fileNum).getD []
    let d2 := d.setFile w.fileNum (writeAt content w.off frame)
    let w1 : Writer := { w with off := w.off + frame.length }
    let totalBytes := toInt32 (4 + dataLen)
    let q1 := { q with writeFile := some w1, writePos := q.writePos + totalBytes }
    let q2 :=
      if q1.writePos > q1.maxBytesPerFile then
        { q1 with writeFileNum := q1.writeFileNum + 1, writePos := 0, writeFile := none }
      else q1
    (none, d2, { q2 with size := q2.size + 1 })

/-- Method `Put`: the error returned (`none` is nil), the directory and the queue
afterwards. -/
def DiskQueue.Put (fl : Faults) (v : Item) (d : Disk) (q : DiskQueue) :
    Option QErr × Disk × DiskQueue :=
  match v with
  | .other => (some .notBytes, d, q)
  | .bytes b =>
    match q.writeFile with
    | some w => q.appendFrame fl b w d
    | none =>
      match openWrite fl d q with
      | .error (e, d1) => (some e, d1, { q with writeFile := none })
      | .ok (w, d1) => q.appendFrame fl b w d1

/-! ## DiskQueue.Get -/

/-- What a call of `Get` does: return a payload, return an error, or abort the
program with a run-time panic. -/
inductive GetResult where
  /-- Returns `readBuf, nil`. -/
  | val (b : List Nat)
  /-- Returns `nil, err`. -/
  | fail (e : QErr)
  /-- The expression `make([]byte, msgSize)` panics: `msgSize` is negative. -/
  | aborted
  deriving DecidableEq, Repr

/-- Method `moveForward`. -/
def DiskQueue.moveForward (q : DiskQueue) : DiskQueue :=
  { q with readFileNum := q.nextReadFileNum, readPos := q.nextReadPos }

/-- The block of `Get` that opens the read segment when `q.readFile == nil`. -/
def openRead (fl : Faults) (d : Disk) (q : DiskQueue) : Except QErr Reader :=
  if fl.openFails then .error .openFailed
  else
    match d.files q.readFileNum with
    | none => .error .openFailed
    | some _ =>
      if q.readPos > 0 then
        if fl.seekFails then .error .seekFailed
        else .ok ⟨q.readFileNum, q.readPos.toNat, []⟩
      else .ok ⟨q.readFileNum, 0, []⟩

/-- The end of `Get`, once the payload is read: the next cursor is computed, the
segment is left when the cursor passes `maxBytesPerFile`, `moveForward` commits
the cursor and `size` is decremented. -/
def DiskQueue.commitRead (q : DiskQueue) (r2 : Reader) (msgSize : Int) : DiskQueue :=
  let totalBytes := toInt32 (4 + msgSize)
  let q1 := { q with readFile := some r2,
                     nextReadPos := q.readPos + totalBytes,
                     nextReadFileNum := q.readFileNum }
  let q2 :=
    if q1.nextReadPos > q1.maxBytesPerFile then
      { q1 with readFile := none,
                nextReadFileNum := q1.nextReadFileNum + 1,
                nextReadPos := 0 }
    else q1
  let q3 := q2.moveForward
  { q3 with size := q3.size - 1 }

/-- The part of `Get` from `binary.Read(q.reader, binary.BigEndian, &msgSize)`
on, with the open read handle `r`. -/
def DiskQueue.readFrame (fl : Faults) (d : Disk) (q : DiskQueue) (r : Reader) :
    GetResult × DiskQueue :=
  let content := (d.files r.fileNum).getD []
  match readFull fl content r 4 with
  | .error e => (.fail e, { q with readFile := none })
  | .ok (hdr, r1) =>
    let msgSize := getInt32 hdr
    -- readBuf := make([]byte, msgSize)
    if msgSize < 0 then (.aborted, { q with readFile := some r1 })
    else
      match readFull fl content r1 msgSize.toNat with
      | .error e => (.fail e, { q with readFile := none })
      | .ok (readBuf, r2) => (.val readBuf, q.commitRead r2 msgSize)

/-- Method `Get`: what the call does and the queue afterwards (the directory is
only read). -/
def DiskQueue.Get (fl : Faults) (d : Disk) (q : DiskQueue) : GetResult × DiskQueue :=
  if q.size = 0 then (.fail .emptyQueue, q)
  else if q.readFileNum > q.writeFileNum
      ∨ (q.readFileNum = q.writeFileNum ∧ q.readPos ≥ q.writePos) then
    (.fail .emptyQueue, q)
  else
    match q.readFile with
    | some r => q.readFrame fl d r
    | none =>
      match openRead fl d q with
      | .error e => (.fail e, { q with readFile := none })
      | .ok r => q.readFrame fl d r

/-! ## Checkpoint and recovery -/

/-- Method `persistMetaData`: the five numbers are written to a temporary file
which is then renamed over the checkpoint file. -/
def DiskQueue.persistMetaData (fl : Faults) (d : Disk) (q : DiskQueue) : Option QErr × Disk :=
  if fl.openFails then (some .openFailed, d)
  else if fl.writeFails then (some .writeFailed, d)
  else
    let fields := [q.size, q.readFileNum, q.readPos, q.writeFileNum, q.writePos]
    (none, { d with metaData := some fields })

/-- The stores made by `fmt.Fscanf(f, "%d,%d,%d,%d,%d", &q.size, &q.readFileNum,
&q.readPos, &q.writeFileNum, &q.writePos)`: each scanned number is stored in
its field, in order. -/
def scanMeta (fields : List Int) (q : DiskQueue) : DiskQueue :=
  match fields with
  | [] => q
  | [a] => { q with size := a }
  | [a, b] => { q with size := a, readFileNum := b }
  | [a, b, c] => { q with size := a, readFileNum := b, readPos := c }
  | [a, b, c, e] => { q with size := a, readFileNum := b, readPos := c, writeFileNum := e }
  | a :: b :: c :: e :: f :: _ =>
    { q with size := a, readFileNum := b, readPos := c, writeFileNum := e, writePos := f }

/-- How far a piece of code that contains a loop has got. -/
inductive Run (α : Type) where
  /-- The code has returned. -/
  | done (a : α)
  /-- The loop has not exited after the allowed number of iterations; `q` is the
  queue at that point. -/
  | running (q : DiskQueue)
  /-- The program was aborted by a panic. -/
  | aborted
  deriving DecidableEq, Repr

/-- The loop `for v, err := q.Get(); err == nil; { q.size++; size++ }` after its
init statement: `err` is the error of the one `Get` the init statement made, and
nothing assigns it again. `fuel` bounds the number of executions of the body. -/
def replayLoop (err : Option QErr) : Nat → DiskQueue → Int → Run (DiskQueue × Int)
  | 0, q, size => if err = none then .running q else .done (q, size)
  | fuel + 1, q, size =>
    if err = none then replayLoop err fuel { q with size := q.size + 1 } (size + 1)
    else .done (q, size)

/-- The queue `retrieveMetaData` hands to the `Get` of the loop's init statement:
the checkpoint numbers stored, `nextRead*` set, `size` forced to 1. -/
def beforeReplay (fields : List Int) (q : DiskQueue) : DiskQueue :=
  let q1 := scanMeta fields q
  { q1 with nextReadFileNum := q1.readFileNum, nextReadPos := q1.readPos, size := 1 }

/-- Method `retrieveMetaData`, with at most `fuel` executions of the body of its loop. -/
def DiskQueue.retrieveMetaData (fuel : Nat) (fl : Faults) (d : Disk) (q : DiskQueue) :
    Run (Option QErr × DiskQueue) :=
  if fl.openFails then .done (some .openFailed, q)
  else
    match d.metaData with
    | none => .done (some .openFailed, q)
    | some fields =>
      if fields.length < 5 then .done (some .scanFailed, scanMeta fields q)
      else
        let size := (scanMeta fields q).size
        let got := DiskQueue.Get fl d (beforeReplay fields q)
        let err : Option (Option QErr) :=
          match got.1 with
          | .val _ => some none
          | .fail e => some (some e)
          | .aborted => none
        match err with
        | none => .aborted
        | some err =>
          match replayLoop err fuel got.2 size with
          | .done (q4, size1) =>
            .done (none, { q4 with writeFileNum := q4.readFileNum,
                                   writePos := q4.nextReadPos,
                                   size := size1 })
          | .running q4 => .running q4
          | .aborted => .aborted

/-- The struct literal built by `NewDiskQueue`. -/
def freshQueue : DiskQueue :=
  { readPos := 0, writePos := 0, readFileNum := 0, writeFileNum := 0,
    maxBytesPerFile := 1000000, nextReadPos := 0, nextReadFileNum := 0,
    readFile := none, writeFile := none, needSync := false, size := 0 }

/-- Function `NewDiskQueue` up to the start of the checkpoint goroutine; the
error of `retrieveMetaData` is dropped. -/
def NewDiskQueue (fuel : Nat) (fl : Faults) (d : Disk) : Run DiskQueue :=
  match freshQueue.retrieveMetaData fuel fl d with
  | .done (_, q1) => .done q1
  | .running q1 => .running q1
  | .aborted => .aborted

/-! ## Sequences of calls on a DiskQueue and the FIFO they are compared with -/

/-- A call on the queue. -/
inductive Op where
  /-- The call `Put(b)` with a byte slice `b`. -/
  | put (b : List Nat)
  /-- The call `Get()`. -/
  | get
  deriving DecidableEq, Repr

/-- What the caller sees of one call: its result and `Size()` right after it. -/
inductive Obs where
  /-- A `Put` returned `err`. -/
  | putDone (err : Option QErr) (size : Int)
  /-- A `Get` did `r`. -/
  | getDone (r : GetResult) (size : Int)
  deriving DecidableEq, Repr

/-- Run the calls one after the other; a panic ends the program. -/
def runOps (fl : Faults) : List Op → Disk → DiskQueue → List Obs
  | [], _, _ => []
  | .put b :: ops, d, q =>
    let r := q.Put fl (.bytes b) d
    .putDone r.1 r.2.2.Size :: runOps fl ops r.2.1 r.2.2
  | .get :: ops, d, q =>
    let r := q.Get fl d
    match r.1 with
    | .aborted => [.getDone .aborted r.2.Size]
    | res => .getDone res r.2.Size :: runOps fl ops d r.2

/-- The FIFO queue of the specification, on the payloads put and not yet
returned (oldest first): `Put` appends, `Get` returns the oldest payload and
fails with the empty-queue error when there is none, `Size()` is their number. -/
def fifoOps : List Op → List (List Nat) → List Obs
  | [], _ => []
  | .put b :: ops, pending =>
    .putDone none (pending.length + 1) :: fifoOps ops (pending ++ [b])
  | .get :: ops, [] => .getDone (.fail .emptyQueue) 0 :: fifoOps ops []
  | .get :: ops, b :: pending => .getDone (.val b) pending.length :: fifoOps ops pending

/-- Put the payloads in order with no injected failure. -/
def putAll : List (List Nat) → Disk → DiskQueue → Disk × DiskQueue
  | [], d, q => (d, q)
  | b :: bs, d, q =>
    let r := q.Put noFaults (.bytes b) d
    putAll bs r.2.1 r.2.2

/-- The directory left by a process that created a queue in an empty directory,
put the payloads and persisted the checkpoint. -/
def diskAfterPuts (payloads : List (List Nat)) : Disk :=
  match NewDiskQueue 0 noFaults emptyDisk with
  | .done q0 =>
    let r := putAll payloads emptyDisk q0
    (r.2.persistMetaData noFaults r.1).2
  | _ => emptyDisk

/-- A directory whose checkpoint `1,0,0,0,5` announces one record in segment 0,
of which only the header and no payload byte reached the disk. -/
def tornDisk : Disk :=
  { files := fun n => if n = 0 then some [0, 0, 0, 1] else none,
    metaData := some [1, 0, 0, 0, 5] }

/-- A directory whose checkpoint `1,0,0,0,4` announces one record in segment 0
and whose segment 0 is the header `FF FF FF FF`. -/
def negativeHeaderDisk : Disk :=
  { files := fun n => if n = 0 then some [255, 255, 255, 255] else none,
    metaData := some [1, 0, 0, 0, 4] }

/-- A directory whose checkpoint is `-1,0,0,0,0`, with no segment. -/
def negativeSizeDisk : Disk :=
  { files := fun _ => none, metaData := some [-1, 0, 0, 0, 0] }

/-- A queue with one record announced in segment 0 (read cursor 0, write cursor 4). -/
def oneRecordQueue : DiskQueue :=
  { readPos := 0, writePos := 4, readFileNum := 0, writeFileNum := 0,
    maxBytesPerFile := 1000000, nextReadPos := 0, nextReadFileNum := 0,
    readFile := none, writeFile := none, needSync := false, size := 1 }

/-- A directory whose segment 0 holds the frame of the payload `a` and then a
header whose payload byte has not reached the disk. -/
def tornSecondDisk : Disk :=
  { files := fun n => if n = 0 then some [0, 0, 0, 1, 97, 0, 0, 0, 1] else none,
    metaData := none }

/-- The directory `tornSecondDisk` once the missing payload byte `b` is there. -/
def completedSecondDisk : Disk :=
  { files := fun n => if n = 0 then some [0, 0, 0, 1, 97, 0, 0, 0, 1, 98] else none,
    metaData := none }

/-- A queue whose first record has been read (read cursor 5 of segment 0, read
handle open at offset 5) and whose second record is announced (write cursor 10). -/
def secondRecordQueue : DiskQueue :=
  { readPos := 5, writePos := 10, readFileNum := 0, writeFileNum := 0,
    maxBytesPerFile := 1000000, nextReadPos := 5, nextReadFileNum := 0,
    readFile := some ⟨0, 5, []⟩, writeFile := none, needSync := false, size := 1 }

/-! ## Invariant of a queue created in an empty directory -/

/-- The frame `Put` writes for the payload `b`: the length header, then `b`. -/
def frame (b : List Nat) : List Nat := putInt32 (toInt32 b.length) ++ b

/-- The bytes a read handle has still to deliver: the read-ahead of the
`bufio.Reader`, then the file from the offset of the handle. -/
def Reader.stream (r : Reader) (content : List Nat) : List Nat :=
  r.buf ++ content.drop r.off

/-- The cursor that follows a frame of payload `b` which starts at offset `p` of
segment `f`: the next segment when the end of the frame passes `maxBytes`. -/
def nextCursor (maxBytes : Int) (f : Int) (p : Nat) (b : List Nat) : Int × Nat :=
  if ((p + (4 + b.length) : Nat) : Int) > maxBytes then (f + 1, 0)
  else (f, p + (4 + b.length))

/-- The frames of the payloads `pending` lie, in order, from the cursor
`(rf, rp)` up to the write cursor `(wf, wp)`, which the cursor is behind as
long as a payload is left. -/
def Pending (maxBytes : Int) (files : Int → Option (List Nat)) (wf : Int) (wp : Nat) :
    Int → Nat → List (List Nat) → Prop
  | rf, rp, [] => rf = wf ∧ rp = wp
  | rf, rp, b :: rest =>
    (∃ c, files rf = some c ∧ (c.drop rp).take (4 + b.length) = frame b)
    ∧ (rf < wf ∨ (rf = wf ∧ rp < wp))
    ∧ Pending maxBytes files wf wp (nextCursor maxBytes rf rp b).1
        (nextCursor maxBytes rf rp b).2 rest

/-- The state of a queue that was created in an empty directory and has the
payloads `pending` put and not yet returned. -/
structure FreshInv (maxBytes : Int) (d : Disk) (q : DiskQueue) (pending : List (List Nat)) :
    Prop where
  /-- The segment size is the configured one. -/
  hmax : q.maxBytesPerFile = maxBytes
  /-- The counter is the number of pending payloads. -/
  hsize : q.size = pending.length
  /-- Every pending payload is short enough for its length to fit the header. -/
  hshort : ∀ b ∈ pending, b.length < 2147483644
  /-- The read offset is not negative. -/
  hrpos : 0 ≤ q.readPos
  /-- The write offset is not negative. -/
  hwpos : 0 ≤ q.writePos
  /-- The pending frames lie between the two cursors. -/
  hpending : Pending maxBytes d.files q.writeFileNum q.writePos.toNat
    q.readFileNum q.readPos.toNat pending
  /-- No segment exists beyond the write segment. -/
  hfuture : ∀ f, q.writeFileNum < f → d.files f = none
  /-- The write handle, when open, stands at the end of the write segment;
  when closed, the write segment does not exist yet. -/
  hwrite : match q.writeFile with
    | some w => w.fileNum = q.writeFileNum ∧ (w.off : Int) = q.writePos
        ∧ ∃ c, d.files q.writeFileNum = some c ∧ c.length = w.off
    | none => q.writePos = 0 ∧ d.files q.writeFileNum = none
  /-- The read handle, when open, delivers the read segment from the read offset. -/
  hread : match q.readFile with
    | some r => r.fileNum = q.readFileNum
        ∧ ∃ c, d.files q.readFileNum = some c ∧ r.off ≤ c.length
          ∧ r.stream c = c.drop q.readPos.toNat
    | none => True

/-! ## TMOCond -/

/-- Capacity of the channel made by `make(chan bool, 1)` in `NewTMOCond`. -/
def chanCap : Nat := 1

/-- The struct `TMOCond`, as the state of its channel `ch` (`L` is the lock
shared with the queue). -/
structure TMOCond where
  /-- Number of tokens held in the buffer of `ch`. -/
  ch : Nat
  /-- Number of goroutines blocked in the receive `<-t.ch`. -/
  parked : Nat
  deriving DecidableEq, Repr

/-- Function `NewTMOCond`. -/
def NewTMOCond : TMOCond := ⟨0, 0⟩

/-- Method `signal`: `select { case t.ch <- true: return true; default: return false }`.
The send goes through when a receiver is blocked on the channel (it takes the
token) or when the buffer has room (the token is stored). -/
def TMOCond.signal (t : TMOCond) : Bool × TMOCond :=
  if 0 < t.parked then (true, { t with parked := t.parked - 1 })
  else if t.ch < chanCap then (true, { t with ch := t.ch + 1 })
  else (false, t)

/-- Method `Signal`. -/
def TMOCond.Signal (t : TMOCond) : TMOCond := t.signal.2

/-- The receive `<-t.ch` of method `Wait` at the moment it starts: `true` when it
completes at once, taking a buffered token; `false` when the caller blocks,
until a later send hands it a token. -/
def TMOCond.Wait (t : TMOCond) : Bool × TMOCond :=
  if 0 < t.ch then (true, { t with ch := t.ch - 1 })
  else (false, { t with parked := t.parked + 1 })

/-! ## BlockQueue -/

/-- The interface `QueueIF` over a backend whose state has type `B`, with
values `V` and errors `E`. -/
structure QueueIF (B V E : Type) where
  /-- Method `Put`: the error (`none` is nil) and the backend afterwards. -/
  Put : V → B → Option E × B
  /-- Method `Get`: the value or the error, and the backend afterwards. -/
  Get : B → Except E V × B
  /-- Method `Size`. -/
  Size : B → Int

/-- The errors a `BlockQueue` call returns: its own `Full` and `Empty`, or the
error of the backend. -/
inductive BQErr (E : Type) where
  /-- The variable `Full`. -/
  | full
  /-- The variable `Empty`. -/
  | empty
  /-- An error returned by the backend, passed on as it is. -/
  | backend (e : E)
  deriving DecidableEq, Repr

/-- The struct `BlockQueue` (the lock `mutex` serialises the calls). -/
structure BlockQueue (B : Type) where
  /-- Field `queue`: the state of the backend. -/
  queue : B
  /-- Field `notEmpty`. -/
  notEmpty : TMOCond
  /-- Field `notFull`. -/
  notFull : TMOCond
  /-- Field `maxSize`. -/
  maxSize : Int

/-- Function `NewBlockQueue`. -/
def NewBlockQueue {B : Type} (queue : B) (maxSize : Int) : BlockQueue B :=
  { queue := queue, notEmpty := NewTMOCond, notFull := NewTMOCond, maxSize := maxSize }

/-- What a caller finds when a `Wait` or `WaitOrTimeout` returns. While it waits
the lock is released and the other goroutines run, so the backend and the two
conditions are whatever they left. -/
structure Wake (B : Type) where
  /-- The result of `WaitOrTimeout`: `true` for a token, `false` for the timer. -/
  signalled : Bool
  /-- The backend when the lock is held again. -/
  queue : B
  /-- The condition `notEmpty` when the lock is held again. -/
  notEmpty : TMOCond
  /-- The condition `notFull` when the lock is held again. -/
  notFull : TMOCond

/-- The queue a caller resumes with after a wait. -/
def BlockQueue.resume {B : Type} (s : BlockQueue B) (w : Wake B) : BlockQueue B :=
  { s with queue := w.queue, notEmpty := w.notEmpty, notFull := w.notFull }

/-- The loop `for q.queue.Size() == 0 { q.notEmpty.Wait() }` of `Get`; `none`
when the caller is still waiting at the end of the trace `env`. -/
def waitNotEmpty {B V E : Type} (I : QueueIF B V E) :
    List (Wake B) → BlockQueue B → Option (BlockQueue B)
  | [], s => if I.Size s.queue = 0 then none else some s
  | w :: env, s => if I.Size s.queue = 0 then waitNotEmpty I env (s.resume w) else some s

/-- The loop `for q.queue.Size() == 0 { if !q.notEmpty.WaitOrTimeout(tmo) { empty = true; break } }`
of `Get`, returning the flag `empty`. -/
def timedWaitNotEmpty {B V E : Type} (I : QueueIF B V E) :
    List (Wake B) → BlockQueue B → Option (Bool × BlockQueue B)
  | [], s => if I.Size s.queue = 0 then none else some (false, s)
  | w :: env, s =>
    if I.Size s.queue = 0 then
      if w.signalled then timedWaitNotEmpty I env (s.resume w) else some (true, s.resume w)
    else some (false, s)

/-- The loop `for q.queue.Size() == q.maxSize { q.notFull.Wait() }` of `Put`. -/
def waitNotFull {B V E : Type} (I : QueueIF B V E) :
    List (Wake B) → BlockQueue B → Option (BlockQueue B)
  | [], s => if I.Size s.queue = s.maxSize then none else some s
  | w :: env, s =>
    if I.Size s.queue = s.maxSize then waitNotFull I env (s.resume w) else some s

/-- The loop `for q.queue.Size() == q.maxSize { if !q.notFull.WaitOrTimeout(tmo) { full = true; break } }`
of `Put`, returning the flag `full`. -/
def timedWaitNotFull {B V E : Type} (I : QueueIF B V E) :
    List (Wake B) → BlockQueue B → Option (Bool × BlockQueue B)
  | [], s => if I.Size s.queue = s.maxSize then none else some (false, s)
  | w :: env, s =>
    if I.Size s.queue = s.maxSize then
      if w.signalled then timedWaitNotFull I env (s.resume w) else some (true, s.resume w)
    else some (false, s)

/-- Method `Get` of `BlockQueue`. `env` lists what the successive waits of the
call return with; the result is `none` when the call is still waiting at the end
of `env`. -/
def BlockQueue.Get {B V E : Type} (I : QueueIF B V E) (block : Bool) (timeout : Int)
    (env : List (Wake B)) (s : BlockQueue B) :
    Option (Except (BQErr E) V × BlockQueue B) :=
  let waited : Option (Bool × BlockQueue B) :=
    if !block then some (decide (I.Size s.queue = 0), s)
    else if timeout = 0 then (waitNotEmpty I env s).map fun s1 => (false, s1)
    else timedWaitNotEmpty I env s
  match waited with
  | none => none
  | some (empty, s1) =>
    if empty then some (.error .empty, s1)
    else
      match I.Get s1.queue with
      | (.error e, b) => some (.error (.backend e), { s1 with queue := b })
      | (.ok v, b) => some (.ok v, { s1 with queue := b, notFull := s1.notFull.Signal })

/-- Method `Put` of `BlockQueue`, with the same reading of `env` as for `Get`. -/
def BlockQueue.Put {B V E : Type} (I : QueueIF B V E) (v : V) (block : Bool) (timeout : Int)
    (env : List (Wake B)) (s : BlockQueue B) :
    Option (Option (BQErr E) × BlockQueue B) :=
  let waited : Option (Bool × BlockQueue B) :=
    if s.maxSize > 0 then
      if !block then some (decide (I.Size s.queue = s.maxSize), s)
      else if timeout = 0 then (waitNotFull I env s).map fun s1 => (false, s1)
      else timedWaitNotFull I env s
    else some (false, s)
  match waited with
  | none => none
  | some (full, s1) =>
    if full then some (some .full, s1)
    else
      match I.Put v s1.queue with
      | (some e, b) => some (some (.backend e), { s1 with queue := b })
      | (none, b) => some (none, { s1 with queue := b, notEmpty := s1.notEmpty.Signal })

/-- A call on a `BlockQueue`. -/
inductive BQOp (V : Type) where
  /-- The call `Put(v, false, 0)`. -/
  | put (v : V)
  /-- The call `Get(false, 0)`. -/
  | get
  deriving DecidableEq, Repr

/-- What a non-blocking call returns. -/
inductive BQObs (V E : Type) where
  /-- A `Put` returned nil. -/
  | ok
  /-- A `Get` returned the value. -/
  | value (v : V)
  /-- The call returned the error. -/
  | error (e : BQErr E)
  deriving DecidableEq, Repr

/-- Run non-blocking calls one after the other. -/
def runBQ {B V E : Type} (I : QueueIF B V E) : List (BQOp V) → BlockQueue B → List (BQObs V E)
  | [], _ => []
  | .put v :: ops, s =>
    match BlockQueue.Put I v false 0 [] s with
    | none => []
    | some (none, s1) => .ok :: runBQ I ops s1
    | some (some e, s1) => .error e :: runBQ I ops s1
  | .get :: ops, s =>
    match BlockQueue.Get I false 0 [] s with
    | none => []
    | some (.ok v, s1) => .value v :: runBQ I ops s1
    | some (.error e, s1) => .error e :: runBQ I ops s1

/-- A first-in first-out backend kept in memory: the list of the values put and
not yet taken, oldest first. -/
def fifoBackend (V : Type) : QueueIF (List V) V Unit where
  Put := fun v b => (none, b ++ [v])
  Get := fun b =>
    match b with
    | [] => (.error (), [])
    | v :: rest => (.ok v, rest)
  Size := fun b => b.length

/-- A backend that only counts: `Put` and `Get` always succeed. -/
def counterBackend : QueueIF Int Unit Unit where
  Put := fun _ b => (none, b + 1)
  Get := fun b => (.ok (), b - 1)
  Size := fun b => b

/-- A backend whose `Get` always fails and leaves its size at `-1`. -/
def brokenBackend : QueueIF Int Unit Unit where
  Put := fun _ b => (none, b + 1)
  Get := fun _ => (.error (), -1)
  Size := fun b => b

/-- The capacity invariant of the specification. -/
def capacityInv {B V E : Type} (I : QueueIF B V E) (s : BlockQueue B) : Prop :=
  0 ≤ I.Size s.queue ∧ I.Size s.queue ≤ s.maxSize

/-! ## Goroutines calling a BlockQueue -/

/-- A call a goroutine makes on the queue. -/
inductive Call (V : Type) where
  /-- The call `Get(block, timeout)`. -/
  | get (block : Bool) (timeout : Int)
  /-- The call `Put(v, block, timeout)`. -/
  | put (v : V) (block : Bool) (timeout : Int)
  deriving DecidableEq, Repr

/-- Where a goroutine stands in its call. The lock is held from `ready` or
`timedOut` to the next point only, so each step below runs alone. -/
inductive PC (V E : Type) where
  /-- About to take the lock: at the entry of the call, or when the receive of
  its `Wait` or `WaitOrTimeout` has completed. -/
  | ready
  /-- Inside `Wait` or `WaitOrTimeout`, after `t.L.Unlock()`, before the receive. -/
  | unlocked
  /-- Blocked in the receive `<-t.ch`. -/
  | parked
  /-- The `select` of `WaitOrTimeout` took the timer; about to take the lock. -/
  | timedOut
  /-- The call has returned. -/
  | returned (r : BQObs V E)
  deriving DecidableEq, Repr

/-- A goroutine: its call and where it stands in it. -/
structure Proc (V E : Type) where
  /-- The call. -/
  call : Call V
  /-- The point reached. -/
  pc : PC V E
  deriving DecidableEq, Repr

/-- The queue and the goroutines calling it. -/
structure Sys (B V E : Type) where
  /-- The queue they share. -/
  queue : BlockQueue B
  /-- The goroutines. -/
  procs : List (Proc V E)

/-- What happens next. -/
inductive Act (V : Type) where
  /-- A new goroutine starts the call. -/
  | spawn (c : Call V)
  /-- Goroutine `i` runs to its next point. -/
  | run (i : Nat)
  /-- The timer of goroutine `i`, which is inside `WaitOrTimeout`, fires. -/
  | timer (i : Nat)
  deriving DecidableEq, Repr

/-- Whether the call waits on `notEmpty` (a `Get`) or on `notFull` (a `Put`). -/
def Call.isGet {V : Type} : Call V → Bool
  | .get _ _ => true
  | .put _ _ _ => false

/-- Whether the call waits with `WaitOrTimeout`. -/
def Call.timed {V : Type} : Call V → Bool
  | .get block timeout => block && decide (timeout ≠ 0)
  | .put _ block timeout => block && decide (timeout ≠ 0)

/-- One goroutine blocked in the receive of the condition (`notEmpty` for
`isGet = true`), the first of the list, completes its receive: a send handed it
the token. -/
def wakeFirst {V E : Type} (isGet : Bool) : List (Proc V E) → List (Proc V E)
  | [] => []
  | p :: ps =>
    match p.pc with
    | .parked =>
      if p.call.isGet = isGet then { p with pc := .ready } :: ps
      else p :: wakeFirst isGet ps
    | _ => p :: wakeFirst isGet ps

/-- The goroutines after a section under the lock turned the queue `old` into
`new`: a `Signal` that lowered the number of blocked receivers of a condition
has woken one of them. -/
def wakeAfter {B V E : Type} (old new : BlockQueue B) (ps : List (Proc V E)) :
    List (Proc V E) :=
  let ps1 := if new.notEmpty.parked < old.notEmpty.parked then wakeFirst true ps else ps
  if new.notFull.parked < old.notFull.parked then wakeFirst false ps1 else ps1

/-- The section goroutine `i` runs under the lock from the loop test of its call
`c`: with no wait to return from (`env = []`), `Get` or `Put` either returns or
finds that it must wait, and then `Wait` releases the lock. -/
def Sys.locked {B V E : Type} (I : QueueIF B V E) (i : Nat) (c : Call V) (s : Sys B V E) :
    Sys B V E :=
  match c with
  | .get block timeout =>
    match BlockQueue.Get I block timeout [] s.queue with
    | none => { s with procs := s.procs.set i ⟨c, .unlocked⟩ }
    | some (r, q1) =>
      let res : BQObs V E := match r with
        | .ok x => .value x
        | .error e => .error e
      { queue := q1, procs := wakeAfter s.queue q1 (s.procs.set i ⟨c, .returned res⟩) }
  | .put v block timeout =>
    match BlockQueue.Put I v block timeout [] s.queue with
    | none => { s with procs := s.procs.set i ⟨c, .unlocked⟩ }
    | some (r, q1) =>
      let res : BQObs V E := match r with
        | none => .ok
        | some e => .error e
      { queue := q1, procs := wakeAfter s.queue q1 (s.procs.set i ⟨c, .returned res⟩) }

/-- The receive `<-t.ch` of goroutine `i`, on `notEmpty` for a `Get` and on
`notFull` for a `Put`. -/
def Sys.receive {B V E : Type} (i : Nat) (c : Call V) (s : Sys B V E) : Sys B V E :=
  if c.isGet then
    let r := s.queue.notEmpty.Wait
    { queue := { s.queue with notEmpty := r.2 },
      procs := s.procs.set i ⟨c, if r.1 then .ready else .parked⟩ }
  else
    let r := s.queue.notFull.Wait
    { queue := { s.queue with notFull := r.2 },
      procs := s.procs.set i ⟨c, if r.1 then .ready else .parked⟩ }

/-- One step of the system; `none` when the step cannot be taken. -/
def Sys.step {B V E : Type} (I : QueueIF B V E) (a : Act V) (s : Sys B V E) :
    Option (Sys B V E) :=
  match a with
  | .spawn c => some { s with procs := s.procs ++ [⟨c, .ready⟩] }
  | .run i =>
    match s.procs.get? i with
    | none => none
    | some p =>
      match p.pc with
      | .ready => some (s.locked I i p.call)
      | .unlocked => some (s.receive i p.call)
      | .timedOut =>
        -- `full = true` or `empty = true`, then `return Full` or `return nil, Empty`
        let res : BQObs V E := .error (if p.call.isGet then .empty else .full)
        some { s with procs := s.procs.set i ⟨p.call, .returned res⟩ }
      | .parked => none
      | .returned _ => none
  | .timer i =>
    match s.procs.get? i with
    | none => none
    | some p =>
      if p.call.timed then
        match p.pc with
        | .unlocked => some { s with procs := s.procs.set i ⟨p.call, .timedOut⟩ }
        | .parked =>
          let q1 : BlockQueue B :=
            if p.call.isGet then
              { s.queue with notEmpty :=
                  { s.queue.notEmpty with parked := s.queue.notEmpty.parked - 1 } }
            else
              { s.queue with notFull :=
                  { s.queue.notFull with parked := s.queue.notFull.parked - 1 } }
          some { queue := q1, procs := s.procs.set i ⟨p.call, .timedOut⟩ }
        | _ => none
      else none

/-- The steps taken one after the other. -/
def Sys.run {B V E : Type} (I : QueueIF B V E) : List (Act V) → Sys B V E → Option (Sys B V E)
  | [], s => some s
  | a :: as, s =>
    match Sys.step I a s with
    | none => none
    | some s1 => Sys.run I as s1

/-- The states reached from `s0` by steps of the goroutines. -/
inductive SysReachable {B V E : Type} (I : QueueIF B V E) (s0 : Sys B V E) :
    Sys B V E → Prop where
  /-- The initial state. -/
  | init : SysReachable I s0 s0
  /-- One more step. -/
  | step (a : Act V) (s s1 : Sys B V E) (hs : SysReachable I s0 s)
      (h : Sys.step I a s = some s1) : SysReachable I s0 s1

/-- Two blocking `Get` calls and two non-blocking `Put` calls, none started yet,
on a new unbounded queue over the empty first-in first-out backend. -/
def twoGetsTwoPuts : Sys (List Char) Char Unit :=
  { queue := NewBlockQueue [] 0,
    procs := [⟨.get true 0, .ready⟩, ⟨.get true 0, .ready⟩,
              ⟨.put 'a' false 0, .ready⟩, ⟨.put 'b' false 0, .ready⟩] }

/-- Two blocking `Put` calls and one blocking `Get` call, none started yet, on a
new queue of capacity 1 over the empty first-in first-out backend. -/
def twoPutsOneGet : Sys (List Char) Char Unit :=
  { queue := NewBlockQueue [] 1,
    procs := [⟨.put 'a' true 0, .ready⟩, ⟨.put 'b' true 0, .ready⟩,
              ⟨.get true 0, .ready⟩] }

/-- The counting backend at size `-1` under a new queue of capacity 2, with no
goroutine. -/
def negativeCounter : Sys Int Unit Unit :=
  { queue := NewBlockQueue (-1) 2, procs := [] }

/-- The interleaving in which both `Get` calls release the lock on the empty
queue, both `Put` calls run, and then the two receives and the first `Get`
proceed. -/
def lostWakeupSchedule : List (Act Char) :=
  [.run 0, .run 1, .run 2, .run 3, .run 0, .run 1, .run 0]

/-! # Properties -/

variable {B V E : Type}

/-! ## The replay loop of `retrieveMetaData` -/

theorem replayLoop_none (fuel : Nat) (q : DiskQueue) (size : Int) :
    ∃ q5, replayLoop none fuel q size = .running q5 ∧ q5.readPos = q.readPos
      ∧ q5.readFileNum = q.readFileNum := by
  induction fuel generalizing q size with
  | zero => exact ⟨q, by simp [replayLoop], rfl, rfl⟩
  | succ n ih =>
    obtain ⟨q5, h1, h2, h3⟩ := ih { q with size := q.size + 1 } (size + 1)
    exact ⟨q5, by simpa [replayLoop] using h1, h2, h3⟩

theorem replayLoop_some (e : QErr) (fuel : Nat) (q : DiskQueue) (size : Int) :
    replayLoop (some e) fuel q size = .done (q, size) := by
  cases fuel <;> simp [replayLoop]

theorem retrieve_of_get_val (fuel : Nat) (fl : Faults) (d : Disk) (q : DiskQueue)
    (fields : List Int) (b : List Nat) (hopen : fl.openFails = false)
    (hm : d.metaData = some fields) (hlen : 5 ≤ fields.length)
    (hget : (DiskQueue.Get fl d (beforeReplay fields q)).1 = .val b) :
    ∃ q5, q.retrieveMetaData fuel fl d = .running q5
      ∧ q5.readPos = (DiskQueue.Get fl d (beforeReplay fields q)).2.readPos
      ∧ q5.readFileNum = (DiskQueue.Get fl d (beforeReplay fields q)).2.readFileNum := by
  obtain ⟨q5, h1, h2, h3⟩ :=
    replayLoop_none fuel (DiskQueue.Get fl d (beforeReplay fields q)).2 (scanMeta fields q).size
  refine ⟨q5, ?_, h2, h3⟩
  have hlen' : ¬ fields.length < 5 := by omega
  simp only [DiskQueue.retrieveMetaData, hopen, hm, hlen', hget, h1]
  simp

theorem retrieve_of_get_fail (fuel : Nat) (fl : Faults) (d : Disk) (q : DiskQueue)
    (fields : List Int) (e : QErr) (hopen : fl.openFails = false)
    (hm : d.metaData = some fields) (hlen : 5 ≤ fields.length)
    (hget : (DiskQueue.Get fl d (beforeReplay fields q)).1 = .fail e) :
    q.retrieveMetaData fuel fl d = .done (none,
      { (DiskQueue.Get fl d (beforeReplay fields q)).2 with
        writeFileNum := (DiskQueue.Get fl d (beforeReplay fields q)).2.readFileNum,
        writePos := (DiskQueue.Get fl d (beforeReplay fields q)).2.nextReadPos,
        size := (scanMeta fields q).size }) := by
  have hlen' : ¬ fields.length < 5 := by omega
  simp only [DiskQueue.retrieveMetaData, hopen, hm, hlen', hget, replayLoop_some]
  simp

theorem retrieve_of_get_aborted (fuel : Nat) (fl : Faults) (d : Disk) (q : DiskQueue)
    (fields : List Int) (hopen : fl.openFails = false)
    (hm : d.metaData = some fields) (hlen : 5 ≤ fields.length)
    (hget : (DiskQueue.Get fl d (beforeReplay fields q)).1 = .aborted) :
    q.retrieveMetaData fuel fl d = .aborted := by
  have hlen' : ¬ fields.length < 5 := by omega
  simp only [DiskQueue.retrieveMetaData, hopen, hm, hlen', hget]
  simp

theorem NewDiskQueue_done {fuel : Nat} {fl : Faults} {d : Disk} {e : Option QErr}
    {q : DiskQueue} (h : freshQueue.retrieveMetaData fuel fl d = .done (e, q)) :
    NewDiskQueue fuel fl d = .done q := by
  simp only [NewDiskQueue, h]

theorem NewDiskQueue_running {fuel : Nat} {fl : Faults} {d : Disk} {q : DiskQueue}
    (h : freshQueue.retrieveMetaData fuel fl d = .running q) :
    NewDiskQueue fuel fl d = .running q := by
  simp only [NewDiskQueue, h]

/-! ## The outcomes of `Get` -/

theorem fileRead_error (fl : Faults) (c : List Nat) (off n : Nat) (e : QErr)
    (h : fileRead fl c off n = .error e) : e = .readFailed ∨ e = .eof := by
  unfold fileRead at h
  by_cases h1 : fl.readFails = true
  · rw [if_pos h1] at h
    injection h with h; exact Or.inl h.symm
  · rw [if_neg h1] at h
    by_cases h2 : (c.drop off).take n = []
    · rw [if_pos h2] at h
      injection h with h; exact Or.inr h.symm
    · rw [if_neg h2] at h
      cases h

theorem Reader.read_error (fl : Faults) (c : List Nat) (r : Reader) (n : Nat) (e : QErr)
    (h : r.read fl c n = .error e) : e = .readFailed ∨ e = .eof := by
  unfold Reader.read at h
  by_cases h1 : r.buf ≠ []
  · rw [if_pos h1] at h; cases h
  · rw [if_neg h1] at h
    by_cases h2 : bufSize ≤ n
    · rw [if_pos h2] at h
      cases h3 : fileRead fl c r.off n with
      | error e1 =>
        simp only [h3] at h
        injection h with h; subst h
        exact fileRead_error _ _ _ _ _ h3
      | ok data => simp only [h3] at h; cases h
    · rw [if_neg h2] at h
      cases h3 : fileRead fl c r.off bufSize with
      | error e1 =>
        simp only [h3] at h
        injection h with h; subst h
        exact fileRead_error _ _ _ _ _ h3
      | ok data => simp only [h3] at h; cases h

theorem readFullLoop_error (fl : Faults) (c : List Nat) (fuel : Nat) (r : Reader) (need : Nat)
    (acc : List Nat) (e : QErr) (h : readFullLoop fl c fuel r need acc = .error e) :
    e = .readFailed ∨ e = .eof ∨ e = .unexpectedEOF := by
  induction fuel generalizing r need acc with
  | zero =>
    cases need with
    | zero => simp [readFullLoop] at h
    | succ n => simp [readFullLoop] at h; subst h; simp
  | succ k ih =>
    cases need with
    | zero => simp [readFullLoop] at h
    | succ n =>
      simp only [readFullLoop] at h
      cases h3 : r.read fl c (n + 1) with
      | error e1 =>
        simp only [h3] at h
        have h4 := Reader.read_error _ _ _ _ _ h3
        injection h with h
        subst h
        split_ifs with h5
        · simp
        · rcases h4 with h4 | h4 <;> simp [h4]
      | ok p =>
        obtain ⟨data, r1⟩ := p
        simp only [h3] at h
        exact ih _ _ _ h

theorem readFull_error (fl : Faults) (c : List Nat) (r : Reader) (n : Nat) (e : QErr)
    (h : readFull fl c r n = .error e) : e ≠ .emptyQueue := by
  rcases readFullLoop_error _ _ _ _ _ _ _ h with h1 | h1 | h1 <;> simp [h1]

theorem openRead_error (fl : Faults) (d : Disk) (q : DiskQueue) (e : QErr)
    (h : openRead fl d q = .error e) : e ≠ .emptyQueue := by
  unfold openRead at h
  by_cases h1 : fl.openFails = true
  · rw [if_pos h1] at h
    injection h with h; simp [← h]
  · rw [if_neg h1] at h
    cases h2 : d.files q.readFileNum with
    | none => simp only [h2] at h; injection h with h; simp [← h]
    | some c =>
      simp only [h2] at h
      by_cases h3 : q.readPos > 0
      · rw [if_pos h3] at h
        by_cases h4 : fl.seekFails = true
        · rw [if_pos h4] at h; injection h with h; simp [← h]
        · rw [if_neg h4] at h; cases h
      · rw [if_neg h3] at h; cases h

/-- Every outcome of the frame read, by the branch of the code that produced it. -/
theorem readFrame_cases (fl : Faults) (d : Disk) (q : DiskQueue) (r : Reader) :
    (∃ e, e ≠ .emptyQueue ∧ q.readFrame fl d r = (.fail e, { q with readFile := none })) ∨
    (∃ r1, q.readFrame fl d r = (.aborted, { q with readFile := some r1 })) ∨
    (∃ b r2 m, q.readFrame fl d r = (.val b, q.commitRead r2 m)) := by
  unfold DiskQueue.readFrame
  dsimp only
  cases h1 : readFull fl ((d.files r.fileNum).getD []) r 4 with
  | error e => exact Or.inl ⟨e, readFull_error _ _ _ _ _ h1, rfl⟩
  | ok p =>
    obtain ⟨hdr, r1⟩ := p
    simp only []
    by_cases h2 : getInt32 hdr < 0
    · rw [if_pos h2]
      exact Or.inr (Or.inl ⟨r1, rfl⟩)
    · rw [if_neg h2]
      cases h3 : readFull fl ((d.files r.fileNum).getD []) r1 (getInt32 hdr).toNat with
      | error e => exact Or.inl ⟨e, readFull_error _ _ _ _ _ h3, rfl⟩
      | ok p2 =>
        obtain ⟨b, r2⟩ := p2
        exact Or.inr (Or.inr ⟨b, r2, _, rfl⟩)

/-- Every outcome of `Get`, by the branch of the code that produced it. -/
theorem get_cases (fl : Faults) (d : Disk) (q : DiskQueue) :
    (DiskQueue.Get fl d q = (.fail .emptyQueue, q)) ∨
    (∃ e, e ≠ .emptyQueue ∧ DiskQueue.Get fl d q = (.fail e, { q with readFile := none })) ∨
    (∃ r1, DiskQueue.Get fl d q = (.aborted, { q with readFile := some r1 })) ∨
    (∃ b r2 m, DiskQueue.Get fl d q = (.val b, q.commitRead r2 m)) := by
  unfold DiskQueue.Get
  by_cases h1 : q.size = 0
  · rw [if_pos h1]; exact Or.inl rfl
  rw [if_neg h1]
  by_cases h2 : q.readFileNum > q.writeFileNum
      ∨ (q.readFileNum = q.writeFileNum ∧ q.readPos ≥ q.writePos)
  · rw [if_pos h2]; exact Or.inl rfl
  rw [if_neg h2]
  right
  cases h3 : q.readFile with
  | some r => exact readFrame_cases fl d q r
  | none =>
    simp only []
    cases h4 : openRead fl d q with
    | error e =>
      refine Or.inl ⟨e, openRead_error _ _ _ _ h4, ?_⟩
      simp [h3]
    | ok r =>
      have := readFrame_cases fl d q r
      simpa [h3] using this

theorem get_failure_past_checks (fl : Faults) (d : Disk) (q q1 : DiskQueue) (e : QErr)
    (h : DiskQueue.Get fl d q = (.fail e, q1)) (he : e ≠ .emptyQueue) :
    q.size ≠ 0 ∧ ¬ (q.readFileNum > q.writeFileNum
      ∨ (q.readFileNum = q.writeFileNum ∧ q.readPos ≥ q.writePos)) := by
  unfold DiskQueue.Get at h
  by_cases h1 : q.size = 0
  · rw [if_pos h1] at h
    injection h with h _
    injection h with h
    exact absurd h.symm he
  · rw [if_neg h1] at h
    by_cases h2 : q.readFileNum > q.writeFileNum
        ∨ (q.readFileNum = q.writeFileNum ∧ q.readPos ≥ q.writePos)
    · rw [if_pos h2] at h
      injection h with h _
      injection h with h
      exact absurd h.symm he
    · exact ⟨h1, h2⟩

/-- With the read handle nil and the queue not empty, `Get` opens the segment
`readFileNum`, seeks to `readPos` when it is positive, and reads the frame
through a new `bufio.Reader`. -/
theorem get_reopens (fl : Faults) (d : Disk) (q : DiskQueue) (hrf : q.readFile = none)
    (hs : q.size ≠ 0)
    (hchk : ¬ (q.readFileNum > q.writeFileNum
      ∨ (q.readFileNum = q.writeFileNum ∧ q.readPos ≥ q.writePos))) :
    (fl.openFails = false → fl.seekFails = false → (d.files q.readFileNum).isSome = true →
      DiskQueue.Get fl d q = q.readFrame fl d ⟨q.readFileNum, q.readPos.toNat, []⟩)
    ∧ (fl.openFails = true ∨ d.files q.readFileNum = none →
      DiskQueue.Get fl d q = (.fail .openFailed, q)) := by
  have hq : ({ q with readFile := none } : DiskQueue) = q := by
    cases q
    simp only at hrf
    subst hrf
    rfl
  constructor
  · intro ho hsk hf
    obtain ⟨c, hc⟩ := Option.isSome_iff_exists.mp hf
    unfold DiskQueue.Get
    rw [if_neg hs, if_neg hchk, hrf]
    by_cases hp : q.readPos > 0
    · simp [openRead, ho, hsk, hc, hp]
    · have h0 : q.readPos.toNat = 0 := by omega
      simp [openRead, ho, hc, hp, h0]
  · intro hfail
    unfold DiskQueue.Get
    rw [if_neg hs, if_neg hchk, hrf]
    rcases hfail with ho | hn
    · simp [openRead, ho, hq]
    · by_cases ho : fl.openFails = true
      · simp [openRead, ho, hq]
      · simp [openRead, ho, hn, hq]

/-- C8: a `Get` that returns an error leaves `size`, `readFileNum` and `readPos`
as they were; the empty-queue error leaves the whole queue unchanged, any other
error only clears the read handle, and the next `Get`, whatever the directory
then holds, opens the segment `readFileNum` again and reads its frame from the
offset `readPos` through a new reader (or fails again with the open error when
the segment cannot be opened); the cursor and the size change only when a
payload is returned. -/
theorem get_failure_makes_no_progress (fl : Faults) (d : Disk) (q q1 : DiskQueue)
    (r : GetResult) (h : DiskQueue.Get fl d q = (r, q1)) :
    (∀ e, r = .fail e →
      q1.size = q.size ∧ q1.readFileNum = q.readFileNum ∧ q1.readPos = q.readPos
      ∧ (e = .emptyQueue → q1 = q)
      ∧ (e ≠ .emptyQueue → q1 = { q with readFile := none }
          ∧ (∀ fl2 d2, fl2.openFails = false → fl2.seekFails = false →
              (d2.files q.readFileNum).isSome = true →
              DiskQueue.Get fl2 d2 q1
                = q1.readFrame fl2 d2 ⟨q.readFileNum, q.readPos.toNat, []⟩)
          ∧ (∀ fl2 d2, fl2.openFails = true ∨ d2.files q.readFileNum = none →
              DiskQueue.Get fl2 d2 q1 = (.fail .openFailed, q1))))
    ∧ ((q1.size ≠ q.size ∨ q1.readFileNum ≠ q.readFileNum ∨ q1.readPos ≠ q.readPos) →
        ∃ b, r = .val b) := by
  rcases get_cases fl d q with h1 | ⟨e1, he1, h1⟩ | ⟨r1, h1⟩ | ⟨b, r2, m, h1⟩
  · rw [h1] at h
    injection h with hr hq
    subst hr; subst hq
    refine ⟨?_, ?_⟩
    · intro e he
      injection he with he
      subst he
      exact ⟨rfl, rfl, rfl, fun _ => rfl, fun hne => absurd rfl hne⟩
    · intro hch
      rcases hch with hch | hch | hch <;> exact absurd rfl hch
  · obtain ⟨hs, hchk⟩ := get_failure_past_checks fl d q _ e1 h1 he1
    rw [h1] at h
    injection h with hr hq
    subst hr; subst hq
    refine ⟨?_, ?_⟩
    · intro e he
      injection he with he
      subst he
      refine ⟨rfl, rfl, rfl, fun hemp => absurd hemp he1, fun _ => ⟨rfl, ?_, ?_⟩⟩
      · intro fl2 d2 ho hsk hf
        exact (get_reopens fl2 d2 { q with readFile := none } rfl hs hchk).1 ho hsk hf
      · intro fl2 d2 hfail
        exact (get_reopens fl2 d2 { q with readFile := none } rfl hs hchk).2 hfail
    · intro hch
      rcases hch with hch | hch | hch <;> exact absurd rfl hch
  · rw [h1] at h
    injection h with hr hq
    subst hr; subst hq
    refine ⟨?_, ?_⟩
    · intro e he
      cases he
    · intro hch
      rcases hch with hch | hch | hch <;> exact absurd rfl hch
  · rw [h1] at h
    injection h with hr hq
    subst hr
    exact ⟨fun e he => (by cases he), fun _ => ⟨b, rfl⟩⟩

/-- C8, on `secondRecordQueue` with its read handle open: over `tornSecondDisk`
the read of the payload fails with `io.EOF`, the cursor stays at offset 5 and the
handle is cleared; over `completedSecondDisk` the next `Get` reads through a
handle opened at offset 5 and returns the payload `b`. -/
theorem get_failure_makes_no_progress_witness :
    DiskQueue.Get noFaults tornSecondDisk secondRecordQueue
        = (.fail .eof, { secondRecordQueue with readFile := none })
    ∧ DiskQueue.Get noFaults completedSecondDisk { secondRecordQueue with readFile := none }
        = DiskQueue.readFrame noFaults completedSecondDisk
            { secondRecordQueue with readFile := none } ⟨0, 5, []⟩
    ∧ (DiskQueue.Get noFaults completedSecondDisk
        { secondRecordQueue with readFile := none }).1 = .val [98] :=
  ⟨by decide,
   ((get_failure_makes_no_progress noFaults tornSecondDisk secondRecordQueue
      { secondRecordQueue with readFile := none } (.fail .eof) (by decide)).1 .eof rfl).2.2.2.2
      (by decide) |>.2.1 noFaults completedSecondDisk rfl rfl (by decide),
   by decide⟩

/-- C9: the replay loop of `retrieveMetaData` uses the result of one `Get`. When
that `Get` returns a payload the loop is still running after any number of
iterations, with the read cursor where that one `Get` left it; when it returns an
error the body is not executed at all: recovery returns with the size read from
the checkpoint, the read cursor of the checkpoint, and the write cursor set to
`readFileNum`, `nextReadPos`. -/
theorem replay_loop_uses_one_get (fl : Faults) (d : Disk) (q : DiskQueue) (fields : List Int)
    (hopen : fl.openFails = false) (hm : d.metaData = some fields) (hlen : 5 ≤ fields.length) :
    (∀ b, (DiskQueue.Get fl d (beforeReplay fields q)).1 = .val b →
      ∀ fuel, ∃ q5, q.retrieveMetaData fuel fl d = .running q5
        ∧ q5.readPos = (DiskQueue.Get fl d (beforeReplay fields q)).2.readPos
        ∧ q5.readFileNum = (DiskQueue.Get fl d (beforeReplay fields q)).2.readFileNum)
    ∧ (∀ e, (DiskQueue.Get fl d (beforeReplay fields q)).1 = .fail e →
      ∀ fuel, ∃ q5, q.retrieveMetaData fuel fl d = .done (none, q5)
        ∧ q5.size = (scanMeta fields q).size
        ∧ q5.readPos = (scanMeta fields q).readPos
        ∧ q5.readFileNum = (scanMeta fields q).readFileNum
        ∧ q5.writePos = (scanMeta fields q).readPos
        ∧ q5.writeFileNum = (scanMeta fields q).readFileNum) := by
  refine ⟨fun b hb fuel => retrieve_of_get_val fuel fl d q fields b hopen hm hlen hb, ?_⟩
  intro e he fuel
  refine ⟨_, retrieve_of_get_fail fuel fl d q fields e hopen hm hlen he, rfl, ?_⟩
  dsimp only
  have hq : (DiskQueue.Get fl d (beforeReplay fields q)).1 = .fail e →
      (DiskQueue.Get fl d (beforeReplay fields q)).2.readPos = (beforeReplay fields q).readPos
      ∧ (DiskQueue.Get fl d (beforeReplay fields q)).2.readFileNum
          = (beforeReplay fields q).readFileNum
      ∧ (DiskQueue.Get fl d (beforeReplay fields q)).2.nextReadPos
          = (beforeReplay fields q).nextReadPos := by
    intro hf
    rcases get_cases fl d (beforeReplay fields q) with h1 | ⟨e1, _, h1⟩ | ⟨r1, h1⟩ | ⟨b, r2, m, h1⟩
    · rw [h1]; exact ⟨rfl, rfl, rfl⟩
    · rw [h1]; exact ⟨rfl, rfl, rfl⟩
    · rw [h1]; exact ⟨rfl, rfl, rfl⟩
    · rw [h1] at hf; cases hf
  obtain ⟨h1, h2, h3⟩ := hq he
  refine ⟨h1, h2, ?_, h2⟩
  rw [h3]
  rfl

/-- C9, on the directory left by one `Put` and a checkpoint (the one `Get`
succeeds, recovery is still looping after 7 iterations) and on `tornDisk` (the
one `Get` fails, recovery returns with the size of the checkpoint). -/
theorem replay_loop_uses_one_get_witness :
    (∃ q5, (freshQueue.retrieveMetaData 7 noFaults (diskAfterPuts [[97]])) = .running q5
        ∧ q5.readPos = 5)
    ∧ (∃ q5, (freshQueue.retrieveMetaData 7 noFaults tornDisk) = .done (none, q5)
        ∧ q5.size = 1) := by
  have h1 := (replay_loop_uses_one_get noFaults (diskAfterPuts [[97]]) freshQueue
    [1, 0, 0, 0, 5] rfl (by decide) (by decide)).1 [97] (by decide) 7
  have h2 := (replay_loop_uses_one_get noFaults tornDisk freshQueue
    [1, 0, 0, 0, 5] rfl (by decide) (by decide)).2 .eof (by decide) 7
  obtain ⟨q5, h3, h4, _⟩ := h1
  obtain ⟨q6, h5, h6, _⟩ := h2
  exact ⟨⟨q5, h3, by rw [h4]; decide⟩, ⟨q6, h5, by rw [h6]; decide⟩⟩

theorem recovery_done (fuel : Nat) (fl : Faults) (d : Disk) (q : DiskQueue)
    (fields : List Int) (e : Option QErr) (q5 : DiskQueue) (hopen : fl.openFails = false)
    (hm : d.metaData = some fields) (hlen : 5 ≤ fields.length)
    (h : q.retrieveMetaData fuel fl d = .done (e, q5)) :
    (∃ err, (DiskQueue.Get fl d (beforeReplay fields q)).1 = .fail err)
      ∧ q5.size = (scanMeta fields q).size
      ∧ q5.writeFileNum = q5.readFileNum ∧ q5.writePos = q5.readPos := by
  rcases get_cases fl d (beforeReplay fields q) with h1 | ⟨e1, _, h1⟩ | ⟨r1, h1⟩ | ⟨b, r2, m, h1⟩
  · have h2 := retrieve_of_get_fail fuel fl d q fields .emptyQueue hopen hm hlen (by rw [h1])
    rw [h2, h1] at h
    injection h with h
    injection h with _ h
    subst h
    exact ⟨⟨_, by rw [h1]⟩, rfl, rfl, rfl⟩
  · have h2 := retrieve_of_get_fail fuel fl d q fields e1 hopen hm hlen (by rw [h1])
    rw [h2, h1] at h
    injection h with h
    injection h with _ h
    subst h
    exact ⟨⟨_, by rw [h1]⟩, rfl, rfl, rfl⟩
  · have h2 := retrieve_of_get_aborted fuel fl d q fields hopen hm hlen (by rw [h1])
    rw [h2] at h
    cases h
  · obtain ⟨q6, h2, _⟩ := retrieve_of_get_val fuel fl d q fields b hopen hm hlen (by rw [h1])
    rw [h2] at h
    cases h

/-- C3: on `tornDisk` (checkpoint `1,0,0,0,5`, segment 0 holding a header without
its payload) the `Get` of the replay fails, so no record is read, and
`NewDiskQueue` returns a queue whose `Size()` is 1, the size of the checkpoint,
with the write cursor on the read cursor; the `Get` that follows fails with the
empty-queue error. In general, whenever `retrieveMetaData` returns after reading
a complete checkpoint, the `Get` of the replay has failed and `size` is the size
stored in the checkpoint. -/
theorem recovery_keeps_checkpoint_size :
    ((DiskQueue.Get noFaults tornDisk (beforeReplay [1, 0, 0, 0, 5] freshQueue)).1 = .fail .eof
      ∧ ∀ fuel, ∃ q, NewDiskQueue fuel noFaults tornDisk = .done q
          ∧ q.Size = 1 ∧ q.writeFileNum = 0 ∧ q.writePos = 0
          ∧ q.readFileNum = 0 ∧ q.readPos = 0
          ∧ (DiskQueue.Get noFaults tornDisk q).1 = .fail .emptyQueue)
    ∧ ∀ (fuel : Nat) (fl : Faults) (d : Disk) (q : DiskQueue) (fields : List Int)
        (e : Option QErr) (q5 : DiskQueue),
        fl.openFails = false → d.metaData = some fields → 5 ≤ fields.length →
        q.retrieveMetaData fuel fl d = .done (e, q5) →
        (∃ err, (DiskQueue.Get fl d (beforeReplay fields q)).1 = .fail err)
          ∧ q5.size = (scanMeta fields q).size
          ∧ q5.writeFileNum = q5.readFileNum ∧ q5.writePos = q5.readPos := by
  refine ⟨⟨by decide, fun fuel => ?_⟩, fun fuel fl d q fields e q5 hopen hm hlen h =>
    recovery_done fuel fl d q fields e q5 hopen hm hlen h⟩
  have h := retrieve_of_get_fail fuel noFaults tornDisk freshQueue
    [1, 0, 0, 0, 5] .eof rfl (by decide) (by decide) (by decide)
  exact ⟨_, NewDiskQueue_done h, by decide⟩

/-! ## TMOCond and the non-blocking calls of BlockQueue -/

/-- C5, as stated, fails on the condition `NewTMOCond` returns: no waiter is
parked, yet `Signal` changes the state, storing one token in the channel, and a
`Wait` that starts afterwards returns at once without any further `Signal`. -/
theorem signal_token_is_buffered :
    NewTMOCond.parked = 0
    ∧ NewTMOCond.Signal ≠ NewTMOCond
    ∧ NewTMOCond.Signal.ch = 1
    ∧ NewTMOCond.Signal.Wait = (true, NewTMOCond) := by
  decide

/-- C5, amended: on a condition with no parked waiter, `Signal` stores the token
when the one-slot buffer of the channel is free, and a `Wait` that starts
afterwards returns at once by taking it; the token is dropped, the state left
unchanged, only when the buffer already holds a token. -/
theorem signal_without_waiter (t : TMOCond) (h : t.parked = 0) :
    (t.ch < chanCap →
      t.signal = (true, { t with ch := t.ch + 1 }) ∧ t.Signal.Wait = (true, t))
    ∧ (¬ t.ch < chanCap → t.signal = (false, t) ∧ t.Signal = t) := by
  obtain ⟨c, p⟩ := t
  simp only at h
  subst h
  refine ⟨fun hc => ?_, fun hc => ?_⟩
  · simp only [TMOCond.signal, TMOCond.Signal, TMOCond.Wait, lt_irrefl, if_false, hc, if_true]
    simp
  · simp only [TMOCond.signal, TMOCond.Signal, lt_irrefl, if_false, hc]
    simp

/-- C5, amended, on the condition `NewTMOCond` returns and on the one a first
`Signal` leaves. -/
theorem signal_without_waiter_witness :
    (NewTMOCond.signal = (true, ⟨1, 0⟩) ∧ NewTMOCond.Signal.Wait = (true, NewTMOCond))
    ∧ (TMOCond.signal ⟨1, 0⟩ = (false, ⟨1, 0⟩) ∧ TMOCond.Signal ⟨1, 0⟩ = ⟨1, 0⟩) :=
  ⟨(signal_without_waiter NewTMOCond rfl).1 (by decide),
   (signal_without_waiter ⟨1, 0⟩ rfl).2 (by decide)⟩


theorem put_nonblocking (I : QueueIF B V E) (v : V) (t : Int) (env : List (Wake B))
    (s : BlockQueue B) :
    BlockQueue.Put I v false t env s =
      if s.maxSize > 0 ∧ I.Size s.queue = s.maxSize then some (some .full, s)
      else
        match I.Put v s.queue with
        | (some e, b) => some (some (.backend e), { s with queue := b })
        | (none, b) => some (none, { s with queue := b, notEmpty := s.notEmpty.Signal }) := by
  unfold BlockQueue.Put
  by_cases h1 : s.maxSize > 0
  · by_cases h2 : I.Size s.queue = s.maxSize
    · simp [h1, h2]
    · simp [h1, h2]
  · simp [h1]

theorem get_nonblocking (I : QueueIF B V E) (t : Int) (env : List (Wake B))
    (s : BlockQueue B) :
    BlockQueue.Get I false t env s =
      if I.Size s.queue = 0 then some (.error .empty, s)
      else
        match I.Get s.queue with
        | (.error e, b) => some (.error (.backend e), { s with queue := b })
        | (.ok v, b) => some (.ok v, { s with queue := b, notFull := s.notFull.Signal }) := by
  unfold BlockQueue.Get
  by_cases h2 : I.Size s.queue = 0
  · simp [h2]
  · simp [h2]

/-- C4: a non-blocking `Put` returns `Full` exactly when `maxSize > 0` and
`Size() == maxSize`, and then leaves the queue and its backend untouched; a
non-blocking `Get` returns `Empty` exactly when `Size() == 0`, and then leaves
them untouched; otherwise the call is the one call of the backend, whose result
it returns (signalling the other condition on success). Over a first-in
first-out backend with capacity 2 the calls Put a, Put b, Put c, Get, Put c,
Get, Get, Get return ok, ok, Full, a, ok, b, c, Empty. -/
theorem nonblocking_calls (I : QueueIF B V E) (v : V) (t : Int) (env : List (Wake B))
    (s : BlockQueue B) :
    (∃ r s1, BlockQueue.Put I v false t env s = some (r, s1)
      ∧ (r = some .full ↔ (s.maxSize > 0 ∧ I.Size s.queue = s.maxSize))
      ∧ ((s.maxSize > 0 ∧ I.Size s.queue = s.maxSize) → s1 = s)
      ∧ (¬ (s.maxSize > 0 ∧ I.Size s.queue = s.maxSize) →
          s1.queue = (I.Put v s.queue).2 ∧ s1.maxSize = s.maxSize ∧ s1.notFull = s.notFull
          ∧ (∀ e, (I.Put v s.queue).1 = some e →
              r = some (.backend e) ∧ s1.notEmpty = s.notEmpty)
          ∧ ((I.Put v s.queue).1 = none → r = none ∧ s1.notEmpty = s.notEmpty.Signal)))
    ∧ (∃ r s1, BlockQueue.Get I false t env s = some (r, s1)
      ∧ (r = .error .empty ↔ I.Size s.queue = 0)
      ∧ (I.Size s.queue = 0 → s1 = s)
      ∧ (I.Size s.queue ≠ 0 →
          s1.queue = (I.Get s.queue).2 ∧ s1.maxSize = s.maxSize ∧ s1.notEmpty = s.notEmpty
          ∧ (∀ e, (I.Get s.queue).1 = .error e →
              r = .error (.backend e) ∧ s1.notFull = s.notFull)
          ∧ (∀ x, (I.Get s.queue).1 = .ok x → r = .ok x ∧ s1.notFull = s.notFull.Signal)))
    ∧ runBQ (fifoBackend Char)
        [.put 'a', .put 'b', .put 'c', .get, .put 'c', .get, .get, .get] (NewBlockQueue [] 2)
      = [.ok, .ok, .error .full, .value 'a', .ok, .value 'b', .value 'c', .error .empty] := by
  refine ⟨?_, ?_, by decide⟩
  · rw [put_nonblocking]
    by_cases h : s.maxSize > 0 ∧ I.Size s.queue = s.maxSize
    · rw [if_pos h]
      exact ⟨_, _, rfl, ⟨fun _ => h, fun _ => rfl⟩, fun _ => rfl, fun hn => absurd h hn⟩
    · rw [if_neg h]
      rcases hp : I.Put v s.queue with ⟨_ | e, b⟩
      · refine ⟨_, _, rfl, ⟨fun hr => (by cases hr), fun hh => absurd hh h⟩,
          fun hh => absurd hh h, fun _ => ⟨rfl, rfl, rfl, ?_, fun _ => ⟨rfl, rfl⟩⟩⟩
        intro e he
        cases he
      · refine ⟨_, _, rfl, ⟨fun hr => (by cases hr), fun hh => absurd hh h⟩,
          fun hh => absurd hh h, fun _ => ⟨rfl, rfl, rfl, ?_, fun hh => (by cases hh)⟩⟩
        intro e1 he
        cases he
        exact ⟨rfl, rfl⟩
  · rw [get_nonblocking]
    by_cases h : I.Size s.queue = 0
    · rw [if_pos h]
      exact ⟨_, _, rfl, ⟨fun _ => h, fun _ => rfl⟩, fun _ => rfl, fun hn => absurd h hn⟩
    · rw [if_neg h]
      rcases hp : I.Get s.queue with ⟨e | x, b⟩
      · refine ⟨_, _, rfl, ⟨fun hr => (by cases hr), fun hh => absurd hh h⟩,
          fun hh => absurd hh h, fun _ => ⟨rfl, rfl, rfl, ?_, fun x hh => (by cases hh)⟩⟩
        intro e1 he
        cases he
        exact ⟨rfl, rfl⟩
      · refine ⟨_, _, rfl, ⟨fun hr => (by cases hr), fun hh => absurd hh h⟩,
          fun hh => absurd hh h, fun _ => ⟨rfl, rfl, rfl, fun e he => (by cases he), ?_⟩⟩
        intro x1 he
        cases he
        exact ⟨rfl, rfl⟩

/-! ## The capacity invariant of BlockQueue -/

theorem waitNotFull_spec (I : QueueIF B V E) (m : Int) (env : List (Wake B))
    (s s1 : BlockQueue B) (hm : s.maxSize = m)
    (henv : ∀ w ∈ env, 0 ≤ I.Size w.queue ∧ I.Size w.queue ≤ m)
    (hs : capacityInv I s) (h : waitNotFull I env s = some s1) :
    capacityInv I s1 ∧ s1.maxSize = m ∧ I.Size s1.queue ≠ s1.maxSize := by
  induction env generalizing s with
  | nil =>
    unfold waitNotFull at h
    split_ifs at h with h1
    injection h with h
    subst h
    exact ⟨hs, hm, h1⟩
  | cons w env ih =>
    unfold waitNotFull at h
    split_ifs at h with h1
    · refine ih (s.resume w) hm (fun x hx => henv x (List.mem_cons_of_mem _ hx)) ?_ h
      have := henv w (List.mem_cons_self _ _)
      exact ⟨this.1, by simpa [BlockQueue.resume, hm] using this.2⟩
    · injection h with h
      subst h
      exact ⟨hs, hm, h1⟩

theorem timedWaitNotFull_spec (I : QueueIF B V E) (m : Int) (env : List (Wake B))
    (s s1 : BlockQueue B) (full : Bool) (hm : s.maxSize = m)
    (henv : ∀ w ∈ env, 0 ≤ I.Size w.queue ∧ I.Size w.queue ≤ m)
    (hs : capacityInv I s) (h : timedWaitNotFull I env s = some (full, s1)) :
    capacityInv I s1 ∧ s1.maxSize = m ∧ (full = false → I.Size s1.queue ≠ s1.maxSize) := by
  induction env generalizing s with
  | nil =>
    unfold timedWaitNotFull at h
    split_ifs at h with h1
    injection h with h
    injection h with h2 h3
    subst h3
    exact ⟨hs, hm, fun _ => h1⟩
  | cons w env ih =>
    have hw := henv w (List.mem_cons_self _ _)
    have hres : capacityInv I (s.resume w) :=
      ⟨hw.1, by simpa [BlockQueue.resume, hm] using hw.2⟩
    unfold timedWaitNotFull at h
    split_ifs at h with h1 h2
    · exact ih (s.resume w) hm (fun x hx => henv x (List.mem_cons_of_mem _ hx)) hres h
    · injection h with h
      injection h with h3 h4
      subst h3; subst h4
      exact ⟨hres, hm, fun hf => by cases hf⟩
    · injection h with h
      injection h with h3 h4
      subst h4
      exact ⟨hs, hm, fun _ => h1⟩

theorem waitNotEmpty_spec (I : QueueIF B V E) (m : Int) (env : List (Wake B))
    (s s1 : BlockQueue B) (hm : s.maxSize = m)
    (henv : ∀ w ∈ env, 0 ≤ I.Size w.queue ∧ I.Size w.queue ≤ m)
    (hs : capacityInv I s) (h : waitNotEmpty I env s = some s1) :
    capacityInv I s1 ∧ s1.maxSize = m ∧ I.Size s1.queue ≠ 0 := by
  induction env generalizing s with
  | nil =>
    unfold waitNotEmpty at h
    split_ifs at h with h1
    injection h with h
    subst h
    exact ⟨hs, hm, h1⟩
  | cons w env ih =>
    unfold waitNotEmpty at h
    split_ifs at h with h1
    · refine ih (s.resume w) hm (fun x hx => henv x (List.mem_cons_of_mem _ hx)) ?_ h
      have := henv w (List.mem_cons_self _ _)
      exact ⟨this.1, by simpa [BlockQueue.resume, hm] using this.2⟩
    · injection h with h
      subst h
      exact ⟨hs, hm, h1⟩

theorem timedWaitNotEmpty_spec (I : QueueIF B V E) (m : Int) (env : List (Wake B))
    (s s1 : BlockQueue B) (empty : Bool) (hm : s.maxSize = m)
    (henv : ∀ w ∈ env, 0 ≤ I.Size w.queue ∧ I.Size w.queue ≤ m)
    (hs : capacityInv I s) (h : timedWaitNotEmpty I env s = some (empty, s1)) :
    capacityInv I s1 ∧ s1.maxSize = m ∧ (empty = false → I.Size s1.queue ≠ 0) := by
  induction env generalizing s with
  | nil =>
    unfold timedWaitNotEmpty at h
    split_ifs at h with h1
    injection h with h
    injection h with h2 h3
    subst h3
    exact ⟨hs, hm, fun _ => h1⟩
  | cons w env ih =>
    have hw := henv w (List.mem_cons_self _ _)
    have hres : capacityInv I (s.resume w) :=
      ⟨hw.1, by simpa [BlockQueue.resume, hm] using hw.2⟩
    unfold timedWaitNotEmpty at h
    split_ifs at h with h1 h2
    · exact ih (s.resume w) hm (fun x hx => henv x (List.mem_cons_of_mem _ hx)) hres h
    · injection h with h
      injection h with h3 h4
      subst h3; subst h4
      exact ⟨hres, hm, fun hf => by cases hf⟩
    · injection h with h
      injection h with h3 h4
      subst h4
      exact ⟨hs, hm, fun _ => h1⟩

/-- What the wait phase of `Put` guarantees when it ends. -/
theorem put_waited (I : QueueIF B V E) (block : Bool) (timeout : Int) (env : List (Wake B))
    (s s1 : BlockQueue B) (full : Bool) (hmax : 0 < s.maxSize)
    (henv : ∀ w ∈ env, 0 ≤ I.Size w.queue ∧ I.Size w.queue ≤ s.maxSize)
    (hs : capacityInv I s)
    (h : (if s.maxSize > 0 then
            if !block then some (decide (I.Size s.queue = s.maxSize), s)
            else if timeout = 0 then (waitNotFull I env s).map fun s1 => (false, s1)
            else timedWaitNotFull I env s
          else some (false, s)) = some (full, s1)) :
    capacityInv I s1 ∧ s1.maxSize = s.maxSize
      ∧ (full = false → I.Size s1.queue ≠ s1.maxSize) := by
  rw [if_pos hmax] at h
  cases block with
  | false =>
    simp only [Bool.not_false, if_true] at h
    injection h with h
    injection h with h1 h2
    subst h2
    refine ⟨hs, rfl, fun hf => ?_⟩
    rw [hf] at h1
    simpa using h1
  | true =>
    simp only [Bool.not_true, Bool.false_eq_true, if_false] at h
    split_ifs at h with h1
    · cases hw : waitNotFull I env s with
      | none => rw [hw] at h; cases h
      | some s2 =>
        rw [hw] at h
        simp only [Option.map_some'] at h
        injection h with h
        injection h with h2 h3
        subst h3
        have := waitNotFull_spec I s.maxSize env s s2 rfl henv hs hw
        exact ⟨this.1, this.2.1, fun _ => this.2.2⟩
    · exact timedWaitNotFull_spec I s.maxSize env s s1 full rfl henv hs h

/-- What the wait phase of `Get` guarantees when it ends. -/
theorem get_waited (I : QueueIF B V E) (block : Bool) (timeout : Int) (env : List (Wake B))
    (s s1 : BlockQueue B) (empty : Bool)
    (henv : ∀ w ∈ env, 0 ≤ I.Size w.queue ∧ I.Size w.queue ≤ s.maxSize)
    (hs : capacityInv I s)
    (h : (if !block then some (decide (I.Size s.queue = 0), s)
          else if timeout = 0 then (waitNotEmpty I env s).map fun s1 => (false, s1)
          else timedWaitNotEmpty I env s) = some (empty, s1)) :
    capacityInv I s1 ∧ s1.maxSize = s.maxSize ∧ (empty = false → I.Size s1.queue ≠ 0) := by
  cases block with
  | false =>
    simp only [Bool.not_false, if_true] at h
    injection h with h
    injection h with h1 h2
    subst h2
    refine ⟨hs, rfl, fun hf => ?_⟩
    rw [hf] at h1
    simpa using h1
  | true =>
    simp only [Bool.not_true, Bool.false_eq_true, if_false] at h
    split_ifs at h with h1
    · cases hw : waitNotEmpty I env s with
      | none => rw [hw] at h; cases h
      | some s2 =>
        rw [hw] at h
        simp only [Option.map_some'] at h
        injection h with h
        injection h with h2 h3
        subst h3
        have := waitNotEmpty_spec I s.maxSize env s s2 rfl henv hs hw
        exact ⟨this.1, this.2.1, fun _ => this.2.2⟩
    · exact timedWaitNotEmpty_spec I s.maxSize env s s1 empty rfl henv hs h

theorem put_call_preserves (I : QueueIF B V E)
    (hput : ∀ v b, (I.Put v b).1 = none → I.Size (I.Put v b).2 = I.Size b + 1)
    (hputF : ∀ v b e, (I.Put v b).1 = some e → I.Size (I.Put v b).2 = I.Size b)
    (v : V) (block : Bool) (timeout : Int)
    (s s1 : BlockQueue B) (r : Option (BQErr E)) (hmax : 0 < s.maxSize)
    (hs : capacityInv I s) (h : BlockQueue.Put I v block timeout [] s = some (r, s1)) :
    capacityInv I s1 ∧ s1.maxSize = s.maxSize := by
  unfold BlockQueue.Put at h
  dsimp only at h
  split at h
  · cases h
  · rename_i full s2 hw
    have hw2 := put_waited I block timeout [] s s2 full hmax
      (fun _ hx => (by cases hx)) hs hw
    obtain ⟨⟨h0, hle⟩, hm2, hnf⟩ := hw2
    split_ifs at h with hfull
    · injection h with h
      injection h with h1 h2
      subst h2
      exact ⟨⟨h0, hle⟩, hm2⟩
    · have hne := hnf (by simpa using hfull)
      split at h
      · rename_i e b hp
        injection h with h
        injection h with h1 h2
        subst h2
        have h3 := hputF v s2.queue e (by rw [hp])
        rw [hp] at h3
        simp only at h3
        exact ⟨⟨by show 0 ≤ I.Size b; rw [h3]; exact h0,
                by show I.Size b ≤ s2.maxSize; rw [h3]; exact hle⟩, hm2⟩
      · rename_i b hp
        injection h with h
        injection h with h1 h2
        subst h2
        have h3 := hput v s2.queue (by rw [hp])
        rw [hp] at h3
        simp only at h3
        refine ⟨⟨by show 0 ≤ I.Size b; rw [h3]; omega,
                 by show I.Size b ≤ s2.maxSize; rw [h3]; omega⟩, hm2⟩

theorem get_call_preserves (I : QueueIF B V E)
    (hget : ∀ b x, (I.Get b).1 = .ok x → I.Size (I.Get b).2 = I.Size b - 1)
    (hgetF : ∀ b e, (I.Get b).1 = .error e → I.Size (I.Get b).2 = I.Size b)
    (block : Bool) (timeout : Int)
    (s s1 : BlockQueue B) (r : Except (BQErr E) V)
    (hs : capacityInv I s) (h : BlockQueue.Get I block timeout [] s = some (r, s1)) :
    capacityInv I s1 ∧ s1.maxSize = s.maxSize := by
  unfold BlockQueue.Get at h
  dsimp only at h
  split at h
  · cases h
  · rename_i empty s2 hw
    have hw2 := get_waited I block timeout [] s s2 empty
      (fun _ hx => (by cases hx)) hs hw
    obtain ⟨⟨h0, hle⟩, hm2, hnf⟩ := hw2
    split_ifs at h with hempty
    · injection h with h
      injection h with h1 h2
      subst h2
      exact ⟨⟨h0, hle⟩, hm2⟩
    · have hne := hnf (by simpa using hempty)
      split at h
      · rename_i e b hp
        injection h with h
        injection h with h1 h2
        subst h2
        have h3 := hgetF s2.queue e (by rw [hp])
        rw [hp] at h3
        simp only at h3
        exact ⟨⟨by show 0 ≤ I.Size b; rw [h3]; exact h0,
                by show I.Size b ≤ s2.maxSize; rw [h3]; exact hle⟩, hm2⟩
      · rename_i x b hp
        injection h with h
        injection h with h1 h2
        subst h2
        have h3 := hget s2.queue x (by rw [hp])
        rw [hp] at h3
        simp only at h3
        refine ⟨⟨by show 0 ≤ I.Size b; rw [h3]; omega,
                 by show I.Size b ≤ s2.maxSize; rw [h3]; omega⟩, hm2⟩

/-- A section under the lock keeps the capacity invariant. -/
theorem locked_preserves (I : QueueIF B V E)
    (hput : ∀ v b, (I.Put v b).1 = none → I.Size (I.Put v b).2 = I.Size b + 1)
    (hget : ∀ b x, (I.Get b).1 = .ok x → I.Size (I.Get b).2 = I.Size b - 1)
    (hputF : ∀ v b e, (I.Put v b).1 = some e → I.Size (I.Put v b).2 = I.Size b)
    (hgetF : ∀ b e, (I.Get b).1 = .error e → I.Size (I.Get b).2 = I.Size b)
    (i : Nat) (c : Call V) (s : Sys B V E) (hmax : 0 < s.queue.maxSize)
    (hs : capacityInv I s.queue) :
    capacityInv I (s.locked I i c).queue ∧ (s.locked I i c).queue.maxSize = s.queue.maxSize := by
  cases c with
  | get block timeout =>
    unfold Sys.locked
    dsimp only
    cases hg : BlockQueue.Get I block timeout [] s.queue with
    | none => exact ⟨hs, rfl⟩
    | some p =>
      obtain ⟨r, q1⟩ := p
      exact get_call_preserves I hget hgetF block timeout s.queue q1 r hs hg
  | put v block timeout =>
    unfold Sys.locked
    dsimp only
    cases hp : BlockQueue.Put I v block timeout [] s.queue with
    | none => exact ⟨hs, rfl⟩
    | some p =>
      obtain ⟨r, q1⟩ := p
      exact put_call_preserves I hput hputF v block timeout s.queue q1 r hmax hs hp

/-- Every step of the goroutines keeps the capacity invariant. -/
theorem sys_step_preserves (I : QueueIF B V E)
    (hput : ∀ v b, (I.Put v b).1 = none → I.Size (I.Put v b).2 = I.Size b + 1)
    (hget : ∀ b x, (I.Get b).1 = .ok x → I.Size (I.Get b).2 = I.Size b - 1)
    (hputF : ∀ v b e, (I.Put v b).1 = some e → I.Size (I.Put v b).2 = I.Size b)
    (hgetF : ∀ b e, (I.Get b).1 = .error e → I.Size (I.Get b).2 = I.Size b)
    (a : Act V) (s s1 : Sys B V E) (hmax : 0 < s.queue.maxSize)
    (hs : capacityInv I s.queue) (h : Sys.step I a s = some s1) :
    capacityInv I s1.queue ∧ s1.queue.maxSize = s.queue.maxSize := by
  cases a with
  | spawn c =>
    simp only [Sys.step] at h
    injection h with h
    subst h
    exact ⟨hs, rfl⟩
  | run i =>
    simp only [Sys.step] at h
    cases hp : s.procs.get? i with
    | none => rw [hp] at h; cases h
    | some p =>
      rw [hp] at h
      dsimp only at h
      cases hpc : p.pc with
      | ready =>
        rw [hpc] at h
        injection h with h
        subst h
        exact locked_preserves I hput hget hputF hgetF i p.call s hmax hs
      | unlocked =>
        rw [hpc] at h
        injection h with h
        subst h
        unfold Sys.receive
        split_ifs <;> exact ⟨hs, rfl⟩
      | timedOut =>
        rw [hpc] at h
        injection h with h
        subst h
        exact ⟨hs, rfl⟩
      | parked => rw [hpc] at h; cases h
      | returned r => rw [hpc] at h; cases h
  | timer i =>
    simp only [Sys.step] at h
    cases hp : s.procs.get? i with
    | none => rw [hp] at h; cases h
    | some p =>
      rw [hp] at h
      dsimp only at h
      by_cases ht : p.call.timed = true
      · rw [if_pos ht] at h
        cases hpc : p.pc with
        | unlocked =>
          rw [hpc] at h
          injection h with h
          subst h
          exact ⟨hs, rfl⟩
        | parked =>
          rw [hpc] at h
          injection h with h
          subst h
          dsimp only
          split_ifs <;> exact ⟨hs, rfl⟩
        | ready => rw [hpc] at h; cases h
        | timedOut => rw [hpc] at h; cases h
        | returned r => rw [hpc] at h; cases h
      · rw [if_neg ht] at h
        cases h

theorem reachable_head (I : QueueIF B V E) (a : Act V) (s0 s1 s : Sys B V E)
    (h : Sys.step I a s0 = some s1) (hr : SysReachable I s1 s) : SysReachable I s0 s := by
  induction hr with
  | init => exact SysReachable.step a s0 s1 SysReachable.init h
  | step b t t1 _ ht ih => exact SysReachable.step b t t1 ih ht

theorem reachable_of_run (I : QueueIF B V E) (as : List (Act V)) (s0 s : Sys B V E)
    (h : Sys.run I as s0 = some s) : SysReachable I s0 s := by
  induction as generalizing s0 with
  | nil =>
    simp only [Sys.run] at h
    injection h with h
    subst h
    exact SysReachable.init
  | cons a as ih =>
    simp only [Sys.run] at h
    cases hst : Sys.step I a s0 with
    | none => rw [hst] at h; cases h
    | some s1 =>
      rw [hst] at h
      exact reachable_head I a s0 s1 s hst (ih s1 h)

/-- C7, as stated, fails twice. Over `brokenBackend`, whose successful `Put`
raises `Size()` by one and which has no successful `Get`, the invariant holds
with size 1 and capacity 2, and the failed backend `Get` of a non-blocking `Get`
leaves the size at `-1`. Over `counterBackend`, whose `Put` and `Get` move
`Size()` by one, the initial size `-1` is at most the capacity 2 and the initial
state, which is reachable, breaks `0 <= Size()`; the `DiskQueue` that
`NewDiskQueue` builds from the checkpoint `-1,0,0,0,0` starts with such a size. -/
theorem capacity_invariant_fails_as_stated :
    ((∀ v b, (brokenBackend.Put v b).1 = none →
        brokenBackend.Size (brokenBackend.Put v b).2 = brokenBackend.Size b + 1)
      ∧ (∀ b x, (brokenBackend.Get b).1 = .ok x →
        brokenBackend.Size (brokenBackend.Get b).2 = brokenBackend.Size b - 1)
      ∧ capacityInv brokenBackend (NewBlockQueue 1 2)
      ∧ ∃ r s1, BlockQueue.Get brokenBackend false 0 [] (NewBlockQueue 1 2) = some (r, s1)
          ∧ ¬ capacityInv brokenBackend s1)
    ∧ ((∀ v b, (counterBackend.Put v b).1 = none →
        counterBackend.Size (counterBackend.Put v b).2 = counterBackend.Size b + 1)
      ∧ (∀ b x, (counterBackend.Get b).1 = .ok x →
        counterBackend.Size (counterBackend.Get b).2 = counterBackend.Size b - 1)
      ∧ counterBackend.Size negativeCounter.queue.queue ≤ negativeCounter.queue.maxSize
      ∧ SysReachable counterBackend negativeCounter negativeCounter
      ∧ ¬ capacityInv counterBackend negativeCounter.queue)
    ∧ (∃ q, NewDiskQueue 0 noFaults negativeSizeDisk = .done q ∧ q.Size = -1) := by
  refine ⟨⟨fun _ _ _ => rfl, fun _ _ h => (by cases h), ?_, ?_⟩,
    ⟨fun _ _ _ => rfl, fun _ _ _ => rfl, by decide, SysReachable.init, ?_⟩,
    ⟨{ freshQueue with size := -1 }, by decide, by decide⟩⟩
  · unfold capacityInv; decide
  · refine ⟨_, _, rfl, ?_⟩
    unfold capacityInv; decide
  · unfold capacityInv; decide

/-- C7, amended: let the backend raise `Size()` by one on a successful `Put`,
lower it by one on a successful `Get` and leave it unchanged on a failed `Put`
or `Get`, and let `maxSize > 0`. Then every step of every goroutine calling
`Put` or `Get`, blocking or not, in any interleaving, keeps
`0 <= Size() <= maxSize`; so does every call that returns without waiting; and
the invariant holds in every state reachable from an initial state in which
`0 <= Size() <= maxSize`. -/
theorem capacity_invariant (I : QueueIF B V E) (s0 : Sys B V E)
    (hmax : 0 < s0.queue.maxSize)
    (hput : ∀ v b, (I.Put v b).1 = none → I.Size (I.Put v b).2 = I.Size b + 1)
    (hget : ∀ b x, (I.Get b).1 = .ok x → I.Size (I.Get b).2 = I.Size b - 1)
    (hputF : ∀ v b e, (I.Put v b).1 = some e → I.Size (I.Put v b).2 = I.Size b)
    (hgetF : ∀ b e, (I.Get b).1 = .error e → I.Size (I.Get b).2 = I.Size b)
    (h0 : capacityInv I s0.queue) :
    (∀ a s s1, s.queue.maxSize = s0.queue.maxSize → capacityInv I s.queue →
        Sys.step I a s = some s1 → capacityInv I s1.queue)
    ∧ (∀ s, SysReachable I s0 s → capacityInv I s.queue)
    ∧ (∀ v block timeout q r q1, q.maxSize = s0.queue.maxSize → capacityInv I q →
        BlockQueue.Put I v block timeout [] q = some (r, q1) → capacityInv I q1)
    ∧ (∀ block timeout q r q1, q.maxSize = s0.queue.maxSize → capacityInv I q →
        BlockQueue.Get I block timeout [] q = some (r, q1) → capacityInv I q1) := by
  refine ⟨fun a s s1 hm hs hstep =>
    (sys_step_preserves I hput hget hputF hgetF a s s1 (hm ▸ hmax) hs hstep).1, ?_,
    fun v block timeout q r q1 hm hs h =>
      (put_call_preserves I hput hputF v block timeout q q1 r (hm ▸ hmax) hs h).1,
    fun block timeout q r q1 _ hs h =>
      (get_call_preserves I hget hgetF block timeout q q1 r hs h).1⟩
  intro s hr
  have key : capacityInv I s.queue ∧ s.queue.maxSize = s0.queue.maxSize := by
    induction hr with
    | init => exact ⟨h0, rfl⟩
    | step a s s1 _ hstep ih =>
      have := sys_step_preserves I hput hget hputF hgetF a s s1 (ih.2 ▸ hmax) ih.1 hstep
      exact ⟨this.1, this.2.trans ih.2⟩
  exact key.1

/-- C7, amended, over the first-in first-out backend with capacity 1: `Put a`
returns, the blocking `Put b` finds the queue full, releases the lock and blocks
in the receive, the `Get` takes `a` and its `Signal` wakes the `Put`, which
stores `b`; the state reached is within the capacity. -/
theorem capacity_invariant_witness :
    ∃ s, Sys.run (fifoBackend Char) [.run 0, .run 1, .run 1, .run 2, .run 1] twoPutsOneGet
        = some s
      ∧ s.queue.queue = ['b']
      ∧ s.procs.map (fun p => p.pc)
          = [.returned .ok, .returned .ok, .returned (.value 'a')]
      ∧ capacityInv (fifoBackend Char) s.queue :=
  have h0 : capacityInv (fifoBackend Char) twoPutsOneGet.queue := by
    unfold capacityInv; decide
  ⟨{ queue := { queue := ['b'], notEmpty := ⟨1, 0⟩, notFull := ⟨0, 0⟩, maxSize := 1 },
     procs := [⟨.put 'a' true 0, .returned .ok⟩, ⟨.put 'b' true 0, .returned .ok⟩,
               ⟨.get true 0, .returned (.value 'a')⟩] },
   rfl, rfl, rfl,
   (capacity_invariant (fifoBackend Char) twoPutsOneGet (by decide)
      (fun v b _ => by simp [fifoBackend])
      (fun b x h => by
        cases b with
        | nil => simp [fifoBackend] at h
        | cons y ys => simp [fifoBackend])
      (fun v b e h => by simp [fifoBackend] at h)
      (fun b e h => by
        cases b with
        | nil => simp [fifoBackend]
        | cons y ys => simp [fifoBackend] at h)
      h0).2.1 _
     (reachable_of_run (fifoBackend Char) [.run 0, .run 1, .run 1, .run 2, .run 1]
       twoPutsOneGet _ rfl)⟩

/-- C6: two blocking `Get` calls find the queue empty and release the lock in
`Wait`; before either reaches the receive, `Put a` stores its token in the
channel and the `Signal` of `Put b` is dropped, the slot being taken. The first
receive takes the token and that `Get` returns `a`; the second receive blocks.
The state reached has a `Get` blocked in `notEmpty.Wait`, the backend holding
`b`, no token in the channel of `notEmpty`, every other call returned, and no
goroutine able to take a step. -/
theorem second_get_stays_parked :
    ∃ s, Sys.run (fifoBackend Char) lostWakeupSchedule twoGetsTwoPuts = some s
      ∧ s.procs = [⟨.get true 0, .returned (.value 'a')⟩, ⟨.get true 0, .parked⟩,
                   ⟨.put 'a' false 0, .returned .ok⟩, ⟨.put 'b' false 0, .returned .ok⟩]
      ∧ s.queue.queue = ['b']
      ∧ (fifoBackend Char).Size s.queue.queue = 1
      ∧ s.queue.notEmpty = ⟨0, 1⟩
      ∧ (∀ i, Sys.step (fifoBackend Char) (.run i) s = none)
      ∧ (∀ i, Sys.step (fifoBackend Char) (.timer i) s = none) := by
  refine ⟨{ queue := { queue := ['b'], notEmpty := ⟨0, 1⟩, notFull := ⟨1, 0⟩, maxSize := 0 },
            procs := [⟨.get true 0, .returned (.value 'a')⟩, ⟨.get true 0, .parked⟩,
                      ⟨.put 'a' false 0, .returned .ok⟩, ⟨.put 'b' false 0, .returned .ok⟩] },
    rfl, rfl, rfl, rfl, rfl, ?_, ?_⟩
  · intro i
    rcases i with _ | _ | _ | _ | i <;> rfl
  · intro i
    rcases i with _ | _ | _ | _ | i <;> rfl

/-! ## A queue created in an empty directory is a FIFO queue -/

/-! ### The frame header -/

theorem toInt32_of_small (x : Int) (h0 : 0 ≤ x) (h1 : x < 2147483648) : toInt32 x = x := by
  unfold toInt32
  omega

theorem putInt32_length (x : Int) : (putInt32 x).length = 4 := rfl

theorem getInt32_putInt32 (n : Nat) (h : n < 2147483648) :
    getInt32 (putInt32 (n : Int)) = (n : Int) := by
  unfold putInt32 getInt32
  dsimp only
  have hu : ((n : Int) % 4294967296).toNat = n := by omega
  rw [hu]
  rw [toInt32_of_small]
  · push_cast
    omega
  · positivity
  · push_cast
    omega

/-! ### Reading through the buffered reader -/

theorem fileRead_ok (c : List Nat) (off n : Nat) (hn : 0 < n) (hoff : off < c.length) :
    fileRead noFaults c off n = .ok ((c.drop off).take n)
      ∧ (c.drop off).take n ≠ [] := by
  have hne : (c.drop off).take n ≠ [] := by
    intro h
    have := congrArg List.length h
    simp at this
    omega
  unfold fileRead
  simp only [noFaults, Bool.false_eq_true, if_false]
  rw [if_neg hne]
  exact ⟨rfl, hne⟩

theorem take_append_drop_len {α : Type} (n : Nat) (l : List α) :
    l.take n ++ l.drop (l.take n).length = l := by
  rcases Nat.le_total n l.length with h | h
  · rw [List.length_take, Nat.min_eq_left h, List.take_append_drop]
  · rw [List.take_of_length_le h, List.drop_length, List.append_nil]

theorem Reader.read_spec (c : List Nat) (r : Reader) (n : Nat) (hn : 0 < n)
    (hoff : r.off ≤ c.length) (hS : r.stream c ≠ []) :
    ∃ data r1, r.read noFaults c n = .ok (data, r1) ∧ data ≠ [] ∧ data.length ≤ n
      ∧ data ++ r1.stream c = r.stream c ∧ r1.fileNum = r.fileNum ∧ r1.off ≤ c.length := by
  unfold Reader.read
  by_cases hb : r.buf ≠ []
  · rw [if_pos hb]
    refine ⟨_, _, rfl, ?_, ?_, ?_, rfl, hoff⟩
    · intro h
      have := congrArg List.length h
      simp at this
      rcases this with h1 | h1
      · omega
      · exact hb h1
    · simp
    · simp [Reader.stream]
      rw [← List.append_assoc, List.take_append_drop]
  · rw [if_neg hb]
    have hb' : r.buf = [] := by simpa using hb
    have hS' : r.stream c = c.drop r.off := by simp [Reader.stream, hb']
    have hlt : r.off < c.length := by
      rw [hS'] at hS
      by_contra hge
      exact hS (List.drop_eq_nil_of_le (by omega))
    by_cases hbig : bufSize ≤ n
    · rw [if_pos hbig]
      obtain ⟨h1, h2⟩ := fileRead_ok c r.off n hn hlt
      rw [h1]
      refine ⟨_, _, rfl, h2, by simp, ?_, rfl, ?_⟩
      · simp only [Reader.stream, hb', List.nil_append]
        rw [← List.drop_drop]
        exact take_append_drop_len n (c.drop r.off)
      · simp only [List.length_take, List.length_drop]
        omega
    · rw [if_neg hbig]
      obtain ⟨h1, h2⟩ := fileRead_ok c r.off bufSize (by decide) hlt
      rw [h1]
      refine ⟨_, _, rfl, ?_, by simp, ?_, rfl, ?_⟩
      · intro h
        have := congrArg List.length h
        simp at this
        rcases this with h3 | h3 | h3
        · omega
        · have : bufSize = 0 := h3
          simp [bufSize] at this
        · omega
      · simp only [Reader.stream, hb', List.nil_append]
        rw [← List.append_assoc, List.take_append_drop, ← List.drop_drop]
        exact take_append_drop_len bufSize (c.drop r.off)
      · simp only [List.length_take, List.length_drop]
        omega

theorem readFullLoop_spec (c : List Nat) (fuel : Nat) (r : Reader) (need : Nat)
    (acc pre rest : List Nat) (hfuel : need ≤ fuel) (hoff : r.off ≤ c.length)
    (hS : r.stream c = pre ++ rest) (hpre : pre.length = need) :
    ∃ r1, readFullLoop noFaults c fuel r need acc = .ok (acc ++ pre, r1)
      ∧ r1.stream c = rest ∧ r1.fileNum = r.fileNum ∧ r1.off ≤ c.length := by
  induction fuel generalizing r need acc pre with
  | zero =>
    have : need = 0 := by omega
    subst this
    have : pre = [] := List.length_eq_zero.mp hpre
    subst this
    exact ⟨r, by simp [readFullLoop], by simpa using hS, rfl, hoff⟩
  | succ k ih =>
    cases need with
    | zero =>
      have : pre = [] := List.length_eq_zero.mp hpre
      subst this
      exact ⟨r, by simp [readFullLoop], by simpa using hS, rfl, hoff⟩
    | succ n =>
      have hne : r.stream c ≠ [] := by
        rw [hS]
        intro h
        have := congrArg List.length h
        rw [List.length_append, List.length_nil] at this
        omega
      obtain ⟨data, r1, h1, h2, h3, h4, h5, h6⟩ :=
        Reader.read_spec c r (n + 1) (by omega) hoff hne
      simp only [readFullLoop, h1]
      -- `data` is a prefix of `pre`
      have hpd : pre = data ++ pre.drop data.length
          ∧ r1.stream c = pre.drop data.length ++ rest := by
        have h7 : data ++ r1.stream c = pre ++ rest := by rw [h4, hS]
        have h8 : data = (pre ++ rest).take data.length := by
          rw [← h7]; simp
        have h9 : data = pre.take data.length :=
          h8.trans (List.take_append_of_le_length (by omega))
        constructor
        · conv_lhs => rw [← List.take_append_drop data.length pre]
          rw [← h9]
        · have := congrArg (List.drop data.length) h7
          rw [List.drop_left] at this
          rw [this, List.drop_append_of_le_length (by omega)]
      obtain ⟨hp1, hp2⟩ := hpd
      have hlen : (pre.drop data.length).length = n + 1 - data.length := by
        simp [hpre]
      have hdpos : 0 < data.length := List.length_pos.mpr h2
      obtain ⟨r2, h10, h11, h12, h13⟩ :=
        ih r1 (n + 1 - data.length) (acc ++ data) (pre.drop data.length)
          (by omega) h6 hp2 hlen
      refine ⟨r2, ?_, h11, h12.trans h5, h13⟩
      rw [h10, List.append_assoc, ← hp1]

theorem readFull_spec (c : List Nat) (r : Reader) (pre rest : List Nat)
    (hoff : r.off ≤ c.length) (hS : r.stream c = pre ++ rest) :
    ∃ r1, readFull noFaults c r pre.length = .ok (pre, r1)
      ∧ r1.stream c = rest ∧ r1.fileNum = r.fileNum ∧ r1.off ≤ c.length := by
  obtain ⟨r1, h⟩ := readFullLoop_spec c pre.length r pre.length [] pre rest
    (le_refl _) hoff hS rfl
  exact ⟨r1, by simpa [readFull] using h.1, h.2⟩

theorem frame_length (b : List Nat) : (frame b).length = 4 + b.length := by
  simp [frame, putInt32_length]

theorem drop_eq_frame_append (c : List Nat) (p : Nat) (b : List Nat)
    (h : (c.drop p).take (4 + b.length) = frame b) :
    c.drop p = frame b ++ c.drop (p + (4 + b.length)) ∧ p + (4 + b.length) ≤ c.length := by
  have hlen := congrArg List.length h
  rw [frame_length, List.length_take, List.length_drop] at hlen
  constructor
  · rw [← h, ← List.drop_drop, List.take_append_drop]
  · omega

theorem readFrame_of_frame (d : Disk) (q : DiskQueue) (r : Reader) (c b rest : List Nat)
    (hc : d.files r.fileNum = some c) (hoff : r.off ≤ c.length)
    (hS : r.stream c = frame b ++ rest) (hb : b.length < 2147483644) :
    ∃ r2, q.readFrame noFaults d r = (.val b, q.commitRead r2 (b.length : Int))
      ∧ r2.stream c = rest ∧ r2.fileNum = r.fileNum ∧ r2.off ≤ c.length := by
  have hlen : toInt32 (b.length : Int) = (b.length : Int) :=
    toInt32_of_small _ (by positivity) (by omega)
  have hS1 : r.stream c = putInt32 (b.length : Int) ++ (b ++ rest) := by
    rw [hS, frame, hlen, List.append_assoc]
  obtain ⟨r1, h1, h2, h3, h4⟩ := readFull_spec c r _ _ hoff hS1
  rw [putInt32_length] at h1
  obtain ⟨r2, h5, h6, h7, h8⟩ := readFull_spec c r1 b rest h4 h2
  refine ⟨r2, ?_, h6, h7.trans h3, h8⟩
  unfold DiskQueue.readFrame
  simp only [hc, Option.getD_some, h1, getInt32_putInt32 b.length (by omega)]
  rw [if_neg (by omega)]
  simp only [Int.toNat_ofNat, h5]

theorem commitRead_eq (q : DiskQueue) (r2 : Reader) (n : Nat) (hn : n < 2147483644)
    (h0 : 0 ≤ q.readPos) :
    q.commitRead r2 (n : Int) =
      if ((q.readPos.toNat + (4 + n) : Nat) : Int) > q.maxBytesPerFile then
        { q with readFile := none, nextReadFileNum := q.readFileNum + 1, nextReadPos := 0,
                 readFileNum := q.readFileNum + 1, readPos := 0, size := q.size - 1 }
      else
        { q with readFile := some r2, nextReadFileNum := q.readFileNum,
                 nextReadPos := ((q.readPos.toNat + (4 + n) : Nat) : Int),
                 readPos := ((q.readPos.toNat + (4 + n) : Nat) : Int), size := q.size - 1 } := by
  have h4 : toInt32 (4 + (n : Int)) = 4 + (n : Int) :=
    toInt32_of_small _ (by positivity) (by omega)
  have hpos : q.readPos + (4 + (n : Int)) = ((q.readPos.toNat + (4 + n) : Nat) : Int) := by
    push_cast
    omega
  unfold DiskQueue.commitRead DiskQueue.moveForward
  simp only [h4, hpos]
  split_ifs <;> rfl

theorem get_step_nil (M : Int) (d : Disk) (q : DiskQueue) (h : FreshInv M d q []) :
    q.Get noFaults d = (.fail .emptyQueue, q) := by
  unfold DiskQueue.Get
  have := h.hsize
  simp at this
  rw [if_pos this]

theorem get_step_cons (M : Int) (d : Disk) (q : DiskQueue) (b : List Nat)
    (P : List (List Nat)) (h : FreshInv M d q (b :: P)) :
    ∃ q1, q.Get noFaults d = (.val b, q1) ∧ FreshInv M d q1 P := by
  obtain ⟨hmax, hsize, hshort, hrpos, hwpos, hpending, hfuture, hwrite, hread⟩ := h
  have hb : b.length < 2147483644 := hshort b (List.mem_cons_self _ _)
  obtain ⟨⟨c, hc, hfr⟩, hbehind, hnext⟩ := hpending
  obtain ⟨hdrop, hfit⟩ := drop_eq_frame_append c _ b hfr
  -- the handle the frame is read from
  have hopen : ∃ r, q.Get noFaults d = q.readFrame noFaults d r ∧ r.fileNum = q.readFileNum
      ∧ r.off ≤ c.length ∧ r.stream c = c.drop q.readPos.toNat := by
    have hs : ¬ q.size = 0 := by rw [hsize]; simp; omega
    have hchk : ¬ (q.readFileNum > q.writeFileNum
        ∨ (q.readFileNum = q.writeFileNum ∧ q.readPos ≥ q.writePos)) := by
      omega
    unfold DiskQueue.Get
    rw [if_neg hs, if_neg hchk]
    cases hrf : q.readFile with
    | some r =>
      rw [hrf] at hread
      obtain ⟨h1, c1, h2, h3, h4⟩ := hread
      rw [hc] at h2
      injection h2 with h2
      subst h2
      exact ⟨r, rfl, h1, h3, h4⟩
    | none =>
      by_cases hp : q.readPos > 0
      · refine ⟨⟨q.readFileNum, q.readPos.toNat, []⟩, ?_, rfl, by simp; omega, by
          simp [Reader.stream]⟩
        simp [openRead, noFaults, hc, hp]
      · refine ⟨⟨q.readFileNum, 0, []⟩, ?_, rfl, by simp, ?_⟩
        · simp [openRead, noFaults, hc, hp]
        · have : q.readPos.toNat = 0 := by omega
          simp [Reader.stream, this]
  obtain ⟨r, hget, hrn, hroff, hrs⟩ := hopen
  obtain ⟨r2, h1, h2, h3, h4⟩ := readFrame_of_frame d q r c b _ (by rw [hrn]; exact hc) hroff
    (hrs.trans hdrop) hb
  refine ⟨_, hget.trans h1, ?_⟩
  rw [commitRead_eq q r2 b.length hb hrpos]
  unfold nextCursor at hnext
  by_cases hrot : ((q.readPos.toNat + (4 + b.length) : Nat) : Int) > q.maxBytesPerFile
  · rw [if_pos hrot]
    rw [if_pos (hmax ▸ hrot)] at hnext
    exact ⟨hmax, by simp at hsize ⊢; omega, fun x hx => hshort x (List.mem_cons_of_mem _ hx),
      le_refl _, hwpos, hnext, hfuture, hwrite, trivial⟩
  · rw [if_neg hrot]
    rw [if_neg (hmax ▸ hrot)] at hnext
    refine ⟨hmax, by simp at hsize ⊢; omega, fun x hx => hshort x (List.mem_cons_of_mem _ hx),
      Int.natCast_nonneg _, hwpos, ?_, hfuture, hwrite, ?_⟩
    · show Pending M d.files q.writeFileNum q.writePos.toNat q.readFileNum
        ((q.readPos.toNat + (4 + b.length) : Nat) : Int).toNat P
      rw [Int.toNat_ofNat]
      exact hnext
    · show r2.fileNum = q.readFileNum ∧ ∃ c1, d.files q.readFileNum = some c1
        ∧ r2.off ≤ c1.length
        ∧ r2.stream c1 = c1.drop ((q.readPos.toNat + (4 + b.length) : Nat) : Int).toNat
      rw [Int.toNat_ofNat]
      exact ⟨h3.trans hrn, c, hc, h4, h2⟩

theorem writeAt_end (c data : List Nat) : writeAt c c.length data = c ++ data := by
  unfold writeAt
  rw [List.take_length, Nat.sub_self, List.replicate_zero, List.append_nil,
    List.drop_eq_nil_of_le (by omega), List.append_nil]

theorem pending_le (M : Int) (files : Int → Option (List Nat)) (wf : Int) (wp : Nat)
    (rf : Int) (rp : Nat) (P : List (List Nat)) (h : Pending M files wf wp rf rp P) :
    rf < wf ∨ (rf = wf ∧ rp ≤ wp) := by
  cases P with
  | nil => exact Or.inr ⟨h.1, le_of_eq h.2⟩
  | cons b rest =>
    rcases h.2.1 with h1 | ⟨h1, h2⟩
    · exact Or.inl h1
    · exact Or.inr ⟨h1, le_of_lt h2⟩

theorem pending_mono (M : Int) (files files1 : Int → Option (List Nat)) (wf : Int) (wp : Nat)
    (hext : ∀ f c, files f = some c → ∃ x, files1 f = some (c ++ x))
    (rf : Int) (rp : Nat) (P : List (List Nat)) (h : Pending M files wf wp rf rp P) :
    Pending M files1 wf wp rf rp P := by
  induction P generalizing rf rp with
  | nil => exact h
  | cons b rest ih =>
    obtain ⟨⟨c, hc, hfr⟩, hbehind, hnext⟩ := h
    obtain ⟨x, hx⟩ := hext rf c hc
    refine ⟨⟨c ++ x, hx, ?_⟩, hbehind, ih _ _ hnext⟩
    obtain ⟨_, hfit⟩ := drop_eq_frame_append c rp b hfr
    rw [← hfr, List.drop_append_of_le_length (by omega),
      List.take_append_of_le_length (by rw [List.length_drop]; omega)]

theorem pending_append (M : Int) (files : Int → Option (List Nat)) (wf : Int) (wp : Nat)
    (b : List Nat)
    (hw : ∃ c, files wf = some c ∧ (c.drop wp).take (4 + b.length) = frame b)
    (rf : Int) (rp : Nat) (P : List (List Nat)) (h : Pending M files wf wp rf rp P) :
    Pending M files (nextCursor M wf wp b).1 (nextCursor M wf wp b).2 rf rp (P ++ [b]) := by
  have hadv : wf < (nextCursor M wf wp b).1
      ∨ (wf = (nextCursor M wf wp b).1 ∧ wp < (nextCursor M wf wp b).2) := by
    unfold nextCursor
    split_ifs
    · left; simp
    · right; simp
  induction P generalizing rf rp with
  | nil =>
    obtain ⟨h1, h2⟩ := h
    subst h1; subst h2
    exact ⟨hw, hadv, rfl, rfl⟩
  | cons b1 rest ih =>
    obtain ⟨hfr, hbehind, hnext⟩ := h
    refine ⟨hfr, ?_, ih _ _ hnext⟩
    rcases hbehind with h1 | ⟨h1, h2⟩ <;> rcases hadv with h3 | ⟨h3, h4⟩
    · left; omega
    · left; omega
    · left; omega
    · right; exact ⟨h1.trans h3, by omega⟩

theorem appendFrame_eq (q : DiskQueue) (w : Writer) (d : Disk) (b : List Nat)
    (hb : b.length < 2147483644) (h0 : 0 ≤ q.writePos) :
    q.appendFrame noFaults b w d =
      (none, d.setFile w.fileNum (writeAt ((d.files w.fileNum).getD []) w.off (frame b)),
        if ((q.writePos.toNat + (4 + b.length) : Nat) : Int) > q.maxBytesPerFile then
          { q with writeFileNum := q.writeFileNum + 1, writePos := 0, writeFile := none,
                   size := q.size + 1 }
        else
          { q with writeFile := some ⟨w.fileNum, w.off + (4 + b.length)⟩,
                   writePos := ((q.writePos.toNat + (4 + b.length) : Nat) : Int),
                   size := q.size + 1 }) := by
  have hlen : toInt32 (b.length : Int) = (b.length : Int) :=
    toInt32_of_small _ (by positivity) (by omega)
  have h4 : toInt32 (4 + (b.length : Int)) = 4 + (b.length : Int) :=
    toInt32_of_small _ (by positivity) (by omega)
  have hpos : q.writePos + (4 + (b.length : Int))
      = ((q.writePos.toNat + (4 + b.length) : Nat) : Int) := by
    push_cast
    omega
  have hfl : (putInt32 (b.length : Int) ++ b).length = 4 + b.length := by
    simp [putInt32_length]
  unfold DiskQueue.appendFrame
  simp only [noFaults, Bool.false_eq_true, if_false, hlen, h4, hpos, frame, hfl]
  split_ifs <;> rfl

theorem put_step (M : Int) (d : Disk) (q : DiskQueue) (b : List Nat) (P : List (List Nat))
    (h : FreshInv M d q P) (hb : b.length < 2147483644) :
    ∃ d1 q1, q.Put noFaults (.bytes b) d = (none, d1, q1) ∧ FreshInv M d1 q1 (P ++ [b]) := by
  obtain ⟨hmax, hsize, hshort, hrpos, hwpos, hpending, hfuture, hwrite, hread⟩ := h
  -- the handle the frame is written through
  have hopen : ∃ w d0 c, q.Put noFaults (.bytes b) d = q.appendFrame noFaults b w d0
      ∧ w.fileNum = q.writeFileNum ∧ w.off = q.writePos.toNat
      ∧ d0.files q.writeFileNum = some c ∧ c.length = w.off
      ∧ (∀ f, f ≠ q.writeFileNum → d0.files f = d.files f)
      ∧ (∀ c1, d.files q.writeFileNum = some c1 → c1 = c) := by
    unfold DiskQueue.Put
    cases hwf : q.writeFile with
    | some w =>
      rw [hwf] at hwrite
      obtain ⟨h1, h2, c, h3, h4⟩ := hwrite
      refine ⟨w, d, c, rfl, h1, by omega, h3, h4, fun _ _ => rfl, ?_⟩
      intro c1 hc1
      rw [h3] at hc1
      injection hc1 with hc1
      exact hc1.symm
    | none =>
      rw [hwf] at hwrite
      obtain ⟨h1, h2⟩ := hwrite
      have ho : openWrite noFaults d q
          = .ok (⟨q.writeFileNum, 0⟩, d.setFile q.writeFileNum []) := by
        simp [openWrite, noFaults, h1, h2]
      refine ⟨⟨q.writeFileNum, 0⟩, d.setFile q.writeFileNum [], [], ?_, rfl, by simp [h1],
        by simp [Disk.setFile], rfl, ?_, ?_⟩
      · simp only [ho]
      · intro f hf
        simp [Disk.setFile, hf]
      · intro c1 hc1
        rw [h2] at hc1
        cases hc1
  obtain ⟨w, d0, c, hput, hwn, hwo, hc, hclen, hother, hsame⟩ := hopen
  have hcont : (d0.files w.fileNum).getD [] = c := by rw [hwn, hc]; rfl
  have hwa : writeAt c w.off (frame b) = c ++ frame b := by rw [← hclen]; exact writeAt_end _ _
  rw [appendFrame_eq q w d0 b hb hwpos, hcont, hwa, hwn] at hput
  -- the directory after the write
  have hfiles : ∀ f, (d0.setFile q.writeFileNum (c ++ frame b)).files f
      = if f = q.writeFileNum then some (c ++ frame b) else d.files f := by
    intro f
    by_cases hf : f = q.writeFileNum
    · simp [Disk.setFile, hf]
    · simp [Disk.setFile, hf, hother f hf]
  have hext : ∀ f c1, d.files f = some c1 →
      ∃ x, (d0.setFile q.writeFileNum (c ++ frame b)).files f = some (c1 ++ x) := by
    intro f c1 hc1
    rw [hfiles]
    by_cases hf : f = q.writeFileNum
    · rw [if_pos hf]
      rw [hf] at hc1
      rw [hsame c1 hc1]
      exact ⟨frame b, rfl⟩
    · rw [if_neg hf]
      exact ⟨[], by simpa using hc1⟩
  have hpend1 := pending_mono M _ _ q.writeFileNum q.writePos.toNat hext _ _ P hpending
  have hwfr : ∃ c1, (d0.setFile q.writeFileNum (c ++ frame b)).files q.writeFileNum = some c1
      ∧ (c1.drop q.writePos.toNat).take (4 + b.length) = frame b := by
    refine ⟨c ++ frame b, by rw [hfiles, if_pos rfl], ?_⟩
    rw [← hwo, ← hclen, List.drop_left, ← frame_length, List.take_length]
  have hpend2 := pending_append M _ q.writeFileNum q.writePos.toNat b hwfr _ _ P hpend1
  have hle := pending_le M _ _ _ _ _ P hpending
  -- the read handle still delivers the read segment
  have hread1 : match q.readFile with
      | some r => r.fileNum = q.readFileNum
          ∧ ∃ c1, (d0.setFile q.writeFileNum (c ++ frame b)).files q.readFileNum = some c1
            ∧ r.off ≤ c1.length ∧ r.stream c1 = c1.drop q.readPos.toNat
      | none => True := by
    cases hrf : q.readFile with
    | none => trivial
    | some r =>
      rw [hrf] at hread
      obtain ⟨h1, c1, h2, h3, h4⟩ := hread
      refine ⟨h1, ?_⟩
      by_cases hf : q.readFileNum = q.writeFileNum
      · have hcc : c1 = c := hsame c1 (hf ▸ h2)
        subst hcc
        refine ⟨c1 ++ frame b, by rw [hfiles, if_pos hf], by simp; omega, ?_⟩
        have hrp : q.readPos.toNat ≤ c1.length := by omega
        unfold Reader.stream at h4 ⊢
        rw [List.drop_append_of_le_length h3, List.drop_append_of_le_length hrp,
          ← List.append_assoc, h4]
      · exact ⟨c1, by rw [hfiles, if_neg hf]; exact h2, h3, h4⟩
  unfold nextCursor at hpend2
  refine ⟨_, _, hput, ?_⟩
  by_cases hrot : ((q.writePos.toNat + (4 + b.length) : Nat) : Int) > q.maxBytesPerFile
  · rw [if_pos hrot]
    rw [if_pos (hmax ▸ hrot)] at hpend2
    refine ⟨hmax, by simp [hsize], ?_, hrpos, le_refl _, hpend2, ?_, ?_, hread1⟩
    · intro x hx
      rcases List.mem_append.mp hx with hx | hx
      · exact hshort x hx
      · simp at hx; rw [hx]; exact hb
    · intro f hf
      have hf' : q.writeFileNum < f := by
        have : q.writeFileNum + 1 < f := hf
        omega
      rw [hfiles, if_neg (by omega)]
      exact hfuture f hf'
    · refine ⟨rfl, ?_⟩
      show (d0.setFile q.writeFileNum (c ++ frame b)).files (q.writeFileNum + 1) = none
      rw [hfiles, if_neg (by omega)]
      exact hfuture _ (by omega)
  · rw [if_neg hrot]
    rw [if_neg (hmax ▸ hrot)] at hpend2
    refine ⟨hmax, by simp [hsize], ?_, hrpos, Int.natCast_nonneg _, ?_, ?_, ?_, hread1⟩
    · intro x hx
      rcases List.mem_append.mp hx with hx | hx
      · exact hshort x hx
      · simp at hx; rw [hx]; exact hb
    · show Pending M _ q.writeFileNum
        ((q.writePos.toNat + (4 + b.length) : Nat) : Int).toNat q.readFileNum q.readPos.toNat _
      rw [Int.toNat_ofNat]
      exact hpend2
    · intro f hf
      have hf' : q.writeFileNum < f := hf
      rw [hfiles, if_neg (by omega)]
      exact hfuture f hf'
    · refine ⟨rfl, ?_, c ++ frame b, by rw [hfiles, if_pos rfl], ?_⟩
      · show ((w.off + (4 + b.length) : Nat) : Int)
          = ((q.writePos.toNat + (4 + b.length) : Nat) : Int)
        rw [hwo]
      · show (c ++ frame b).length = w.off + (4 + b.length)
        rw [List.length_append, frame_length, hclen]

theorem runOps_fifo (M : Int) (ops : List Op) (d : Disk) (q : DiskQueue)
    (P : List (List Nat)) (h : FreshInv M d q P)
    (hops : ∀ b, Op.put b ∈ ops → b.length < 2147483644) :
    runOps noFaults ops d q = fifoOps ops P := by
  induction ops generalizing d q P with
  | nil => rfl
  | cons op ops ih =>
    have hrest : ∀ b, Op.put b ∈ ops → b.length < 2147483644 :=
      fun b hb => hops b (List.mem_cons_of_mem _ hb)
    cases op with
    | put b =>
      obtain ⟨d1, q1, h1, h2⟩ := put_step M d q b P h (hops b (List.mem_cons_self _ _))
      have hs : q1.Size = (P.length : Int) + 1 := by
        unfold DiskQueue.Size
        rw [h2.hsize]
        simp
      simp only [runOps, fifoOps, h1, hs, ih d1 q1 (P ++ [b]) h2 hrest]
    | get =>
      cases P with
      | nil =>
        have h1 := get_step_nil M d q h
        have hs : q.Size = 0 := by
          unfold DiskQueue.Size
          rw [h.hsize]
          rfl
        simp only [runOps, fifoOps, h1, hs, ih d q [] h hrest]
      | cons b P1 =>
        obtain ⟨q1, h1, h2⟩ := get_step_cons M d q b P1 h
        have hs : q1.Size = (P1.length : Int) := by
          unfold DiskQueue.Size
          rw [h2.hsize]
        simp only [runOps, fifoOps, h1, hs, ih d q1 P1 h2 hrest]

theorem freshInv_init (M : Int) :
    FreshInv M emptyDisk { freshQueue with maxBytesPerFile := M } [] :=
  ⟨rfl, rfl, fun _ h => (by cases h), le_refl _, le_refl _, ⟨rfl, rfl⟩, fun _ _ => rfl,
    ⟨rfl, rfl⟩, trivial⟩

/-- C1: a `DiskQueue` created by `NewDiskQueue` in an empty directory, with no
file operation failing and every payload shorter than 2^31-4 bytes, answers any
sequence of `Put` and `Get` calls as the first-in first-out queue does: each
`Get` returns the oldest payload put and not yet returned, fails with the
empty-queue error exactly when there is none, and `Size()` after every call is
the number of payloads put and not yet returned. This holds for the segment
size 1000000 of `NewDiskQueue` and for every other value of `maxBytesPerFile`,
so across any number of segment rotations. -/
theorem diskqueue_is_fifo (ops : List Op)
    (hshort : ∀ b, Op.put b ∈ ops → b.length < 2147483644) (fuel : Nat) :
    ∃ q0, NewDiskQueue fuel noFaults emptyDisk = .done q0
      ∧ q0.maxBytesPerFile = 1000000
      ∧ runOps noFaults ops emptyDisk q0 = fifoOps ops []
      ∧ ∀ M, runOps noFaults ops emptyDisk { q0 with maxBytesPerFile := M } = fifoOps ops [] := by
  refine ⟨freshQueue, ?_, rfl, ?_, ?_⟩
  · simp [NewDiskQueue, DiskQueue.retrieveMetaData, noFaults, emptyDisk]
  · exact runOps_fifo 1000000 ops emptyDisk freshQueue [] (freshInv_init 1000000) hshort
  · intro M
    exact runOps_fifo M ops emptyDisk _ [] (freshInv_init M) hshort

/-- C1, on ten calls whose frames cross two segment rotations when
`maxBytesPerFile` is 10. -/
theorem diskqueue_is_fifo_witness :
    runOps noFaults
        [.put [1, 2], .get, .get, .put [3], .put [4, 5, 6, 7, 8, 9, 10, 11], .put [],
          .get, .get, .get, .get]
        emptyDisk { freshQueue with maxBytesPerFile := 10 }
      = [.putDone none 1, .getDone (.val [1, 2]) 0, .getDone (.fail .emptyQueue) 0,
          .putDone none 1, .putDone none 2, .putDone none 3, .getDone (.val [3]) 2,
          .getDone (.val [4, 5, 6, 7, 8, 9, 10, 11]) 1, .getDone (.val []) 0,
          .getDone (.fail .emptyQueue) 0] := by
  obtain ⟨q0, h1, _, _, h2⟩ := diskqueue_is_fifo
    [.put [1, 2], .get, .get, .put [3], .put [4, 5, 6, 7, 8, 9, 10, 11], .put [],
      .get, .get, .get, .get]
    (by
      intro b hb
      simp at hb
      rcases hb with h | h | h | h <;> subst h <;> simp)
    0
  have hq : q0 = freshQueue := by
    have : NewDiskQueue 0 noFaults emptyDisk = .done freshQueue := by decide
    rw [this] at h1
    injection h1 with h1
    exact h1.symm
  subst hq
  rw [h2 10]
  decide

/-! ## Restart over the directory of a running queue, and corrupt headers -/

theorem get_val_of_frame (d : Disk) (q : DiskQueue) (c b : List Nat)
    (hsize : q.size ≠ 0) (hrpos : 0 ≤ q.readPos) (hrf : q.readFile = none)
    (hc : d.files q.readFileNum = some c)
    (hfr : (c.drop q.readPos.toNat).take (4 + b.length) = frame b)
    (hbehind : q.readFileNum < q.writeFileNum
      ∨ (q.readFileNum = q.writeFileNum ∧ q.readPos < q.writePos))
    (hb : b.length < 2147483644) :
    ∃ q1, q.Get noFaults d = (.val b, q1) := by
  obtain ⟨hdrop, hfit⟩ := drop_eq_frame_append c _ b hfr
  have hchk : ¬ (q.readFileNum > q.writeFileNum
      ∨ (q.readFileNum = q.writeFileNum ∧ q.readPos ≥ q.writePos)) := by
    omega
  have hopen : ∃ r, openRead noFaults d q = .ok r ∧ r.fileNum = q.readFileNum
      ∧ r.off ≤ c.length ∧ r.stream c = c.drop q.readPos.toNat := by
    by_cases hp : q.readPos > 0
    · refine ⟨⟨q.readFileNum, q.readPos.toNat, []⟩, ?_, rfl, by simp; omega, by
        simp [Reader.stream]⟩
      simp [openRead, noFaults, hc, hp]
    · refine ⟨⟨q.readFileNum, 0, []⟩, ?_, rfl, by simp, ?_⟩
      · simp [openRead, noFaults, hc, hp]
      · have : q.readPos.toNat = 0 := by omega
        simp [Reader.stream, this]
  obtain ⟨r, hop, hrn, hroff, hrs⟩ := hopen
  obtain ⟨r2, h1, _⟩ := readFrame_of_frame d q r c b _ (by rw [hrn]; exact hc) hroff
    (hrs.trans hdrop) hb
  refine ⟨q.commitRead r2 b.length, ?_⟩
  unfold DiskQueue.Get
  rw [if_neg hsize, if_neg hchk, hrf]
  simp only [hop]
  exact h1

theorem put_read_cursor (fl : Faults) (v : Item) (d : Disk) (q : DiskQueue) :
    (q.Put fl v d).2.2.readPos = q.readPos
      ∧ (q.Put fl v d).2.2.readFileNum = q.readFileNum
      ∧ (q.Put fl v d).2.2.readFile = q.readFile := by
  have happ : ∀ (b : List Nat) (w : Writer) (d0 : Disk),
      (q.appendFrame fl b w d0).2.2.readPos = q.readPos
        ∧ (q.appendFrame fl b w d0).2.2.readFileNum = q.readFileNum
        ∧ (q.appendFrame fl b w d0).2.2.readFile = q.readFile := by
    intro b w d0
    unfold DiskQueue.appendFrame
    dsimp only
    split_ifs <;> exact ⟨rfl, rfl, rfl⟩
  unfold DiskQueue.Put
  cases v with
  | other => exact ⟨rfl, rfl, rfl⟩
  | bytes b =>
    dsimp only
    cases hw : q.writeFile with
    | some w => exact happ b w d
    | none =>
      dsimp only
      cases ho : openWrite fl d q with
      | error p => exact ⟨rfl, rfl, rfl⟩
      | ok p => exact happ b p.1 p.2

theorem putAll_inv (M : Int) (bs : List (List Nat)) (d : Disk) (q : DiskQueue)
    (P : List (List Nat)) (h : FreshInv M d q P) (hbs : ∀ b ∈ bs, b.length < 2147483644) :
    FreshInv M (putAll bs d q).1 (putAll bs d q).2 (P ++ bs)
      ∧ (putAll bs d q).2.readPos = q.readPos
      ∧ (putAll bs d q).2.readFileNum = q.readFileNum
      ∧ (putAll bs d q).2.readFile = q.readFile := by
  induction bs generalizing d q P with
  | nil => simpa [putAll] using h
  | cons b bs ih =>
    obtain ⟨d1, q1, h1, h2⟩ := put_step M d q b P h (hbs b (List.mem_cons_self _ _))
    have h3 := put_read_cursor noFaults (.bytes b) d q
    rw [h1] at h3
    have h4 := ih d1 q1 (P ++ [b]) h2 (fun x hx => hbs x (List.mem_cons_of_mem _ hx))
    simp only [putAll, h1]
    rw [List.append_assoc] at h4
    exact ⟨h4.1, h4.2.1.trans h3.1, h4.2.2.1.trans h3.2.1, h4.2.2.2.trans h3.2.2⟩

theorem diskAfterPuts_eq (ps : List (List Nat)) :
    (diskAfterPuts ps).files = (putAll ps emptyDisk freshQueue).1.files
    ∧ (diskAfterPuts ps).metaData = some
        [(putAll ps emptyDisk freshQueue).2.size,
         (putAll ps emptyDisk freshQueue).2.readFileNum,
         (putAll ps emptyDisk freshQueue).2.readPos,
         (putAll ps emptyDisk freshQueue).2.writeFileNum,
         (putAll ps emptyDisk freshQueue).2.writePos] := by
  have hnew : NewDiskQueue 0 noFaults emptyDisk = .done freshQueue := by decide
  unfold diskAfterPuts
  rw [hnew]
  exact ⟨rfl, rfl⟩

theorem restart_running (b : List Nat) (bs : List (List Nat))
    (hshort : ∀ x ∈ b :: bs, x.length < 2147483644) (fuel : Nat) :
    ∃ q, NewDiskQueue fuel noFaults (diskAfterPuts (b :: bs)) = .running q := by
  obtain ⟨hinv, _, _, hrh⟩ := putAll_inv 1000000 (b :: bs) emptyDisk freshQueue []
    (freshInv_init 1000000) hshort
  obtain ⟨hfiles, hmeta⟩ := diskAfterPuts_eq (b :: bs)
  obtain ⟨hmax, hsize, _, hrpos, hwpos, hpending, _, _, _⟩ := hinv
  rw [List.nil_append] at hpending
  obtain ⟨⟨c, hc, hfr⟩, hbehind, _⟩ := hpending
  have hbehind1 : (putAll (b :: bs) emptyDisk freshQueue).2.readFileNum
        < (putAll (b :: bs) emptyDisk freshQueue).2.writeFileNum
      ∨ ((putAll (b :: bs) emptyDisk freshQueue).2.readFileNum
          = (putAll (b :: bs) emptyDisk freshQueue).2.writeFileNum
        ∧ (putAll (b :: bs) emptyDisk freshQueue).2.readPos
          < (putAll (b :: bs) emptyDisk freshQueue).2.writePos) := by
    omega
  obtain ⟨q1, hget⟩ := get_val_of_frame (diskAfterPuts (b :: bs))
    (beforeReplay
      [(putAll (b :: bs) emptyDisk freshQueue).2.size,
       (putAll (b :: bs) emptyDisk freshQueue).2.readFileNum,
       (putAll (b :: bs) emptyDisk freshQueue).2.readPos,
       (putAll (b :: bs) emptyDisk freshQueue).2.writeFileNum,
       (putAll (b :: bs) emptyDisk freshQueue).2.writePos] freshQueue)
    c b (by show (1 : Int) ≠ 0; decide) hrpos rfl (by rw [hfiles]; exact hc) hfr hbehind1
    (hshort b (List.mem_cons_self _ _))
  obtain ⟨q5, h, _⟩ := retrieve_of_get_val fuel noFaults (diskAfterPuts (b :: bs)) freshQueue
    _ b rfl hmeta (by simp) (by rw [hget])
  exact ⟨q5, NewDiskQueue_running h⟩

/-- C2: over the directory left by a fresh queue after `Put` of the payloads and
a persisted checkpoint, `NewDiskQueue` returns with `Size() == 0` when there was
no payload, and for every non-empty list of payloads it has not returned after
any number of iterations of the replay loop. -/
theorem restart_after_puts (payloads : List (List Nat))
    (hshort : ∀ b ∈ payloads, b.length < 2147483644) (fuel : Nat) :
    (payloads = [] →
      ∃ q, NewDiskQueue fuel noFaults (diskAfterPuts payloads) = .done q ∧ q.Size = 0)
    ∧ (payloads ≠ [] →
      ∃ q, NewDiskQueue fuel noFaults (diskAfterPuts payloads) = .running q) := by
  refine ⟨fun h => ?_, fun h => ?_⟩
  · subst h
    have h1 := retrieve_of_get_fail fuel noFaults (diskAfterPuts []) freshQueue
      [0, 0, 0, 0, 0] .emptyQueue rfl (by decide) (by decide) (by decide)
    exact ⟨_, NewDiskQueue_done h1, by decide⟩
  · cases payloads with
    | nil => exact absurd rfl h
    | cons b bs => exact restart_running b bs hshort fuel

/-- C2, for the single payload `a`: the checkpoint is `1,0,0,0,5`, segment 0 holds
the frame `00 00 00 01 61`, and the restart is still in the replay loop after 3
iterations. -/
theorem restart_after_puts_witness :
    (diskAfterPuts [[97]]).metaData = some [1, 0, 0, 0, 5]
    ∧ (diskAfterPuts [[97]]).files 0 = some [0, 0, 0, 1, 97]
    ∧ ∃ q, NewDiskQueue 3 noFaults (diskAfterPuts [[97]]) = .running q :=
  ⟨by decide, by decide,
   (restart_after_puts [[97]] (by intro b hb; simp at hb; subst hb; simp) 3).2 (by simp)⟩

theorem get_aborts_of_negative_header (d : Disk) (q : DiskQueue) (c hdr rest : List Nat)
    (hsize : q.size ≠ 0)
    (hbehind : q.readFileNum < q.writeFileNum
      ∨ (q.readFileNum = q.writeFileNum ∧ q.readPos < q.writePos))
    (hrpos : 0 ≤ q.readPos) (hrf : q.readFile = none)
    (hc : d.files q.readFileNum = some c)
    (hfr : c.drop q.readPos.toNat = hdr ++ rest) (hlen : hdr.length = 4)
    (hneg : getInt32 hdr < 0) :
    (q.Get noFaults d).1 = .aborted := by
  have hchk : ¬ (q.readFileNum > q.writeFileNum
      ∨ (q.readFileNum = q.writeFileNum ∧ q.readPos ≥ q.writePos)) := by
    omega
  have hfit : q.readPos.toNat ≤ c.length := by
    by_contra hgt
    rw [List.drop_eq_nil_of_le (by omega)] at hfr
    have := congrArg List.length hfr
    rw [List.length_append, hlen, List.length_nil] at this
    omega
  have hopen : ∃ r, openRead noFaults d q = .ok r ∧ r.fileNum = q.readFileNum
      ∧ r.off ≤ c.length ∧ r.stream c = c.drop q.readPos.toNat := by
    by_cases hp : q.readPos > 0
    · refine ⟨⟨q.readFileNum, q.readPos.toNat, []⟩, ?_, rfl, hfit, by simp [Reader.stream]⟩
      simp [openRead, noFaults, hc, hp]
    · refine ⟨⟨q.readFileNum, 0, []⟩, ?_, rfl, by simp, ?_⟩
      · simp [openRead, noFaults, hc, hp]
      · have : q.readPos.toNat = 0 := by omega
        simp [Reader.stream, this]
  obtain ⟨r, hop, hrn, hroff, hrs⟩ := hopen
  obtain ⟨r1, h1, _⟩ := readFull_spec c r hdr rest hroff (hrs.trans hfr)
  rw [hlen] at h1
  unfold DiskQueue.Get
  rw [if_neg hsize, if_neg hchk, hrf]
  simp only [hop]
  unfold DiskQueue.readFrame
  simp only [hrn, hc, Option.getD_some, h1]
  rw [if_pos hneg]

/-- C10: with one record announced (read cursor 0, write cursor 4) and a segment
that starts with the header `FF FF FF FF`, which decodes to the length `-1`,
`Get` neither returns a payload nor an error: `make([]byte, msgSize)` panics, and
`NewDiskQueue` over that directory is aborted by the same `Get`. In general `Get`
panics whenever the four bytes at the read cursor decode to a negative length. -/
theorem get_aborts_on_negative_length :
    (getInt32 [255, 255, 255, 255] = -1
      ∧ (DiskQueue.Get noFaults negativeHeaderDisk oneRecordQueue).1 = .aborted
      ∧ ∀ fuel, NewDiskQueue fuel noFaults negativeHeaderDisk = .aborted)
    ∧ ∀ (d : Disk) (q : DiskQueue) (c hdr rest : List Nat),
        q.size ≠ 0 →
        (q.readFileNum < q.writeFileNum
          ∨ (q.readFileNum = q.writeFileNum ∧ q.readPos < q.writePos)) →
        0 ≤ q.readPos → q.readFile = none → d.files q.readFileNum = some c →
        c.drop q.readPos.toNat = hdr ++ rest → hdr.length = 4 → getInt32 hdr < 0 →
        (q.Get noFaults d).1 = .aborted := by
  refine ⟨⟨by decide, by decide, fun fuel => ?_⟩,
    fun d q c hdr rest h1 h2 h3 h4 h5 h6 h7 h8 =>
      get_aborts_of_negative_header d q c hdr rest h1 h2 h3 h4 h5 h6 h7 h8⟩
  have h := retrieve_of_get_aborted fuel noFaults negativeHeaderDisk freshQueue
    [1, 0, 0, 0, 4] rfl rfl (by decide) (by decide)
  simp only [NewDiskQueue, h]

end GoQueue
